import Mathlib

/-!
Verification of the decision-os hierarchical knowledge store.

The development shallowly embeds the TypeScript sources
(`src/storage.ts`, `src/hierarchical-storage.ts`, `src/schemas.ts`) in Lean.
JS strings are modelled as `List Char`, the on-disk layer state as an explicit
`Store` structure, and each storage operation as a pure function on that state
(fallible operations return `Except`).  Timestamps are threaded as opaque
string parameters.  JS `Map`s are modelled as insertion-ordered association
lists, and `Array.prototype.sort` (stable per the ECMAScript spec) as a stable
insertion sort.
-/

namespace DecisionOS

/-- Text (JS strings) modelled as lists of characters. -/
abbrev Str := List Char

/-- Conversion from Lean string literals to the text model. -/
def txt (s : String) : Str := s.data

/-- The regex class `\d`. -/
def isDig (c : Char) : Bool := '0' ≤ c && c ≤ '9'

/-- The regex class `[a-z0-9]` used by `slugify`. -/
def isLowerAlnumChar (c : Char) : Bool := ('a' ≤ c && c ≤ 'z') || ('0' ≤ c && c ≤ '9')

/-- The regex class `[a-z0-9-]` (slug characters). -/
def slugChar (c : Char) : Bool := isLowerAlnumChar c || c == '-'

/-- Numeric value of a decimal digit character. -/
def charVal (c : Char) : Nat := c.toNat - 48

/-- The decimal digit character for a value below ten. -/
def digitChar : Nat → Char
  | 0 => '0' | 1 => '1' | 2 => '2' | 3 => '3' | 4 => '4'
  | 5 => '5' | 6 => '6' | 7 => '7' | 8 => '8' | _ => '9'

/-- Fuel-driven decimal printing of a natural number (JS `String(n)`).
The accumulator holds the already-produced low digits. -/
def natCharsGo : Nat → Nat → Str → Str
  | 0, _, acc => acc
  | fuel+1, n, acc =>
      if n < 10 then digitChar n :: acc
      else natCharsGo fuel (n / 10) (digitChar (n % 10) :: acc)

/-- Decimal representation of a natural number (JS `String(n)`). -/
def natChars (n : Nat) : Str := natCharsGo (n + 1) n []

/-- Decimal representation of an integer (JS `String(n)` for integral numbers). -/
def intChars (n : Int) : Str :=
  if n < 0 then '-' :: natChars n.natAbs else natChars n.natAbs

/-- JS `padStart(4, "0")`. -/
def padTo4 (l : Str) : Str := List.replicate (4 - l.length) '0' ++ l

/-- Parse the leading run of decimal digits (the `^(\d+)` + `parseInt`
idiom used by `initializeCounters`). -/
def parseGo : Nat → Str → Nat
  | acc, [] => acc
  | acc, c :: cs => if isDig c then parseGo (acc * 10 + charVal c) cs else acc

/-- The numeric value of a string's leading digit run. -/
def parseLead (l : Str) : Nat := parseGo 0 l

/-- JS `String.prototype.trim`. -/
def trimChars (l : Str) : Str :=
  ((l.dropWhile Char.isWhitespace).reverse.dropWhile Char.isWhitespace).reverse

/-- JS `toLowerCase` (ASCII-faithful). -/
def lowerStr (l : Str) : Str := l.map Char.toLower

/-- JS `toUpperCase` (ASCII-faithful). -/
def upperStr (l : Str) : Str := l.map Char.toUpper

/-- Skip a run of non-alphanumeric characters. -/
def dropNonAlnum (l : Str) : Str := l.dropWhile (fun c => !isLowerAlnumChar c)

/-- The regex replace `/[^a-z0-9]+/g → "-"`: every maximal run of
non-alphanumeric characters becomes one hyphen.  Fuel-driven; one unit of
fuel is consumed per produced character, so `l.length` fuel is exact. -/
def collapseGo : Nat → Str → Str
  | 0, _ => []
  | _+1, [] => []
  | fuel+1, c :: cs =>
      if isLowerAlnumChar c then c :: collapseGo fuel cs
      else '-' :: collapseGo fuel (dropNonAlnum cs)

/-- Replace runs of non-alphanumerics with single hyphens. -/
def collapseRuns (l : Str) : Str := collapseGo l.length l

/-- The regex replace `/^-+|-+$/g → ""`: strip leading and trailing hyphens. -/
def trimHyphens (l : Str) : Str :=
  ((l.dropWhile (fun c => c == '-')).reverse.dropWhile (fun c => c == '-')).reverse

/-- `DecisionOSStorage.slugify`: lower-case, collapse non-alphanumeric runs to
hyphens, strip boundary hyphens, truncate to 50 characters. -/
def slugify (l : Str) : Str := (trimHyphens (collapseRuns (lowerStr l))).take 50

/-- The case identifier `{seq padded to 4}-{slug(title)}` built by `createCase`. -/
def mkCaseId (n : Nat) (title : Str) : Str := padTo4 (natChars n) ++ '-' :: slugify title

/-- Does the second list start with the first? -/
def startsWithChars : Str → Str → Bool
  | [], _ => true
  | _ :: _, [] => false
  | a :: as, b :: bs => a == b && startsWithChars as bs

/-- JS `String.prototype.includes` (substring test). -/
def hasSub : Str → Str → Bool
  | n, [] => n.isEmpty
  | n, c :: t => startsWithChars n (c :: t) || hasSub n t

/-- Lexicographic comparison of strings by character code (JS default sort order). -/
def strLt : Str → Str → Bool
  | [], [] => false
  | [], _ :: _ => true
  | _ :: _, [] => false
  | a :: as, b :: bs => if a < b then true else if b < a then false else strLt as bs

/-- Insert into an ascending sorted list of strings. -/
def insertStr (x : Str) : List Str → List Str
  | [] => [x]
  | y :: ys => if strLt y x then y :: insertStr x ys else x :: y :: ys

/-- JS `Array.prototype.sort()` on an array of strings. -/
def sortStrs : List Str → List Str
  | [] => []
  | x :: xs => insertStr x (sortStrs xs)

/-- JS `join(",")`. -/
def joinComma (l : List Str) : Str := List.intercalate [','] l

/-- JS `join(", ")`. -/
def joinCommaSpace (l : List Str) : Str := List.intercalate (txt ", ") l

/-- First-occurrence deduplication (JS `[...new Set(xs)]`, which iterates in
insertion order), carrying the set of already-seen strings. -/
def dedupFirstAux : List Str → List Str → List Str
  | _, [] => []
  | seen, x :: xs =>
      if seen.contains x then dedupFirstAux seen xs
      else x :: dedupFirstAux (x :: seen) xs

/-- JS `[...new Set(xs)]`. -/
def dedupFirst (l : List Str) : List Str := dedupFirstAux [] l

/-! ## Data model (`src/schemas.ts`) -/

/-- `CaseStatus = ACTIVE | COMPLETED | ABANDONED`. -/
inductive CaseStatus
  | ACTIVE
  | COMPLETED
  | ABANDONED
deriving DecidableEq

/-- `FoundationScope`/`ConfigScope` (GLOBAL or PROJECT). -/
inductive Scope
  | GLOBAL
  | PROJECT
deriving DecidableEq

/-- Pressure event (divergence record), `PressureEvent` in `schemas.ts`. -/
structure PressureEvent where
  id : Str
  timestamp : Str
  case_id : Str
  pressure_type : Option Str
  context_tags : Option (List Str)
  expected : Str
  actual : Str
  adaptation : Str
  remember : Str
  outcome : Option Str
  promoted_to_foundation : Option Str
deriving DecidableEq

/-- `ContextSignals` (free-form enumerations modelled as open strings). -/
structure ContextSignals where
  risk_level : Option Str
  reversibility : Option Str
  change_frequency : Option Str
  affected_surface : Option (List Str)
  novelty : Option Str
  repo_scope : Option Str
deriving DecidableEq

/-- `ExecutionSignals`. -/
structure ExecutionSignals where
  diff_scope : Option Str
  uncertainty : Option Str
  dependency_change : Option Str
deriving DecidableEq

/-- `OutcomeSignals` (regret normalised to its string form). -/
structure OutcomeSignals where
  regressions : Option Str
  rework_within_14d : Option Bool
  regret : Str
  notes : Option Str
deriving DecidableEq

/-- The `signals` block of a case. -/
structure CaseSignals where
  context : Option ContextSignals
  execution : Option ExecutionSignals
  outcome : Option OutcomeSignals
deriving DecidableEq

/-- The `context` block of a case (only the fields the store touches). -/
structure CaseContext where
  touched_areas : Option (List Str)
deriving DecidableEq

/-- Unit of work, `Case` in `schemas.ts`. -/
structure Case where
  id : Str
  title : Str
  goal : Option Str
  status : CaseStatus
  created_at : Str
  completed_at : Option Str
  context : Option CaseContext
  signals : Option CaseSignals
  pressure_events : Option (List Str)
deriving DecidableEq

/-- Compressed-learning record, `Foundation` in `schemas.ts`.  The schema
constrains `confidence` to `{0,1,2,3}`; it is carried as `Nat` with that
bound supplied as a hypothesis where relevant. -/
structure Foundation where
  id : Str
  title : Str
  default_behavior : Str
  context_tags : List Str
  counter_contexts : Option (List Str)
  confidence : Nat
  scope : Scope
  origin_project : Option Str
  validated_in : Option (List Str)
  exit_criteria : Option Str
  source_pressures : List Str
  created_at : Str
  updated_at : Str
deriving DecidableEq

/-- `FoundationWithSource`: a foundation annotated with the layer it came
from (`_source_layer`, `_source_scope`). -/
structure FoundationWithSource extends Foundation where
  source_layer : Str
  source_scope : Scope
deriving DecidableEq

/-! ## Layer store state (`src/storage.ts`) -/

/-- One case directory: `cases/<id>/case.yaml` plus `cases/<id>/pressures.yaml`. -/
structure CaseEntry where
  caseData : Case
  pressures : List PressureEvent
deriving DecidableEq

/-- A `DecisionOSStorage` instance together with its layer directory contents.
`foundationsFile = none` models a missing `defaults/foundations.yaml`.
`cases` is kept in listing order (`listCases` order). -/
structure Store where
  basePath : Str
  configProject : Str
  activeCase : Option Str
  nextCaseId : Nat
  nextPressureId : Nat
  nextFoundationId : Nat
  cases : List CaseEntry
  foundationsFile : Option (List Foundation)
deriving DecidableEq

/-- Typed failures raised by store operations. -/
inductive StorageErr
  | notFound (id : Str)
  | validation
  | noActiveCase
  | noGlobalLayer
deriving DecidableEq

/-- Locate a case directory by id. -/
def findCaseEntry (st : Store) (caseId : Str) : Option CaseEntry :=
  st.cases.find? (fun e => e.caseData.id == caseId)

/-- `getCase`: read one case document (none when the directory is missing). -/
def getCase (st : Store) (caseId : Str) : Option Case :=
  (findCaseEntry st caseId).map (fun e => e.caseData)

/-- `getPressureEvents`: the events of one case (empty when missing). -/
def getPressureEvents (st : Store) (caseId : Str) : List PressureEvent :=
  match findCaseEntry st caseId with
  | some e => e.pressures
  | none => []

/-- `setActiveCase`: update the in-memory pointer and the marker file. -/
def setActiveCase (st : Store) (caseId : Option Str) : Store :=
  { st with activeCase := caseId }

/-- Input to `createCase`. -/
structure CreateCaseInput where
  title : Str
  goal : Option Str
  signals : Option CaseSignals
  touched_areas : Option (List Str)
deriving DecidableEq

/-- `createCase`: allocate `{seq:04d}-{slug(title)}`, bump the counter,
persist the case with an empty pressures file, and make it active. -/
def createCase (st : Store) (input : CreateCaseInput) (now : Str) : Store × Case :=
  let id := mkCaseId st.nextCaseId input.title
  let resolvedGoal :=
    match input.goal with
    | some g => if 0 < (trimChars g).length then trimChars g else input.title
    | none => input.title
  let caseData : Case :=
    { id := id
      title := input.title
      goal := some resolvedGoal
      status := .ACTIVE
      created_at := now
      completed_at := none
      context := some { touched_areas := input.touched_areas }
      signals := input.signals
      pressure_events := some [] }
  let st1 : Store :=
    { st with
        nextCaseId := st.nextCaseId + 1
        cases := st.cases ++ [{ caseData := caseData, pressures := [] }] }
  (setActiveCase st1 (some id), caseData)

/-- The `string | number` regret argument of `closeCase`. -/
inductive RegretVal
  | str (s : Str)
  | num (n : Int)
deriving DecidableEq

/-- `String(outcome.regret)`. -/
def normalizeRegret : RegretVal → Str
  | .str s => s
  | .num n => intChars n

/-- Outcome argument of `closeCase`. -/
structure CloseOutcome where
  regret : RegretVal
  notes : Option Str
  regressions : Option Str
deriving DecidableEq

/-- Schema check for the stored regret enum `"0" | "1" | "2" | "3"`. -/
def validRegretStr (s : Str) : Bool :=
  s == txt "0" || s == txt "1" || s == txt "2" || s == txt "3"

/-- Schema check for the `Regressions` enum (absent is allowed). -/
def validRegressions : Option Str → Bool
  | none => true
  | some s => s == txt "NONE" || s == txt "MINOR" || s == txt "MAJOR"

/-- Is `promoted_to_foundation` truthy (present and non-empty)? -/
def pTruthy (p : PressureEvent) : Bool :=
  match p.promoted_to_foundation with
  | some s => !s.isEmpty
  | none => false

/-- The merged case written by `closeCase` via `updateCase`: status COMPLETED,
completion timestamp, and the outcome signals replacing any previous ones. -/
def applyCloseUpdate (c : Case) (normalized : Str) (notes regressions : Option Str)
    (now : Str) : Case :=
  let existingSignals := c.signals.getD { context := none, execution := none, outcome := none }
  { c with
      status := .COMPLETED
      completed_at := some now
      signals := some
        { existingSignals with
            outcome := some
              { regressions := regressions
                rework_within_14d := none
                regret := normalized
                notes := notes } } }

/-- `forgetCase`: delete the case directory (case document and pressures). -/
def forgetCase (st : Store) (caseId : Str) : Store :=
  { st with cases := st.cases.filter (fun e => !(e.caseData.id == caseId)) }

/-- `closeCase`: normalise regret, merge the outcome into the case, mark it
COMPLETED, clear the active pointer if it pointed here, then apply the
auto-forget rule: with regret "0" and no unpromoted pressure events the case
directory is deleted and `forgotten = true` is reported. -/
def closeCase (st : Store) (caseId : Str) (outcome : CloseOutcome) (now : Str) :
    Except StorageErr (Store × Case × Bool) :=
  let normalized := normalizeRegret outcome.regret
  match findCaseEntry st caseId with
  | none => .error (.notFound caseId)
  | some entry =>
      if validRegretStr normalized && validRegressions outcome.regressions then
        let updated :=
          applyCloseUpdate entry.caseData normalized outcome.notes outcome.regressions now
        let st1 : Store :=
          { st with
              cases := st.cases.map (fun e =>
                if e.caseData.id == caseId then
                  { e with caseData :=
                      applyCloseUpdate e.caseData normalized outcome.notes outcome.regressions now }
                else e) }
        let st2 := if st1.activeCase == some caseId then setActiveCase st1 none else st1
        if normalized == txt "0" then
          let pressures := getPressureEvents st2 caseId
          let allPromoted := pressures.isEmpty || pressures.all pTruthy
          if allPromoted then .ok (forgetCase st2 caseId, updated, true)
          else .ok (st2, updated, false)
        else .ok (st2, updated, false)
      else .error .validation

/-! ## Foundations in one layer (`src/storage.ts`) -/

/-- Optional filters of `getFoundations`. -/
structure GetFilters where
  context_tags : Option (List Str)
  min_confidence : Option Nat
deriving DecidableEq

/-- `getFoundations`: all records of the layer's collection file, optionally
filtered by tag overlap and then by minimum confidence (inclusive); an
absent collection file yields the empty list. -/
def layerGetFoundations (st : Store) (filters : Option GetFilters) : List Foundation :=
  match st.foundationsFile with
  | none => []
  | some fs =>
      let fs1 :=
        match filters with
        | some f =>
            match f.context_tags with
            | some tags =>
                if 0 < tags.length then
                  fs.filter (fun fd => fd.context_tags.any (fun t => tags.contains t))
                else fs
            | none => fs
        | none => fs
      match filters with
      | some f =>
          match f.min_confidence with
          | some m => fs1.filter (fun fd => m ≤ fd.confidence)
          | none => fs1
      | none => fs1

/-- Set the promoted-to field of the first event with the given id. -/
def replaceFirstPE (peId fid : Str) : List PressureEvent → List PressureEvent
  | [] => []
  | p :: ps =>
      if p.id == peId then { p with promoted_to_foundation := some fid } :: ps
      else p :: replaceFirstPE peId fid ps

/-- `markPressurePromoted`: scan the cases for the owner of the pressure id
and stamp the foundation id on that event; silently no-op when absent. -/
def markPressureGo (peId fid : Str) : List CaseEntry → List CaseEntry
  | [] => []
  | e :: rest =>
      if e.pressures.any (fun p => p.id == peId) then
        { e with pressures := replaceFirstPE peId fid e.pressures } :: rest
      else e :: markPressureGo peId fid rest

/-- `markPressurePromoted` lifted to the store. -/
def markPressurePromoted (st : Store) (peId fid : Str) : Store :=
  { st with cases := markPressureGo peId fid st.cases }

/-- Input of `promoteToFoundation`. -/
structure PromoteInput where
  title : Str
  default_behavior : Str
  context_tags : List Str
  counter_contexts : Option (List Str)
  source_pressures : List Str
  exit_criteria : Option Str
  scope : Option Scope
  origin_project : Option Str
deriving DecidableEq

/-- `promoteToFoundation`: allocate a `GF-`/`F-` prefixed id by scope, build
the record at confidence 1 with `validated_in` seeded from a truthy origin
project, append it to the collection, then mark each source pressure
promoted. -/
def promoteToFoundation (st : Store) (input : PromoteInput) (now : Str) :
    Store × Foundation :=
  let scope := input.scope.getD .PROJECT
  let pre := if scope == .GLOBAL then txt "GF" else txt "F"
  let id := pre ++ '-' :: padTo4 (natChars st.nextFoundationId)
  let foundation : Foundation :=
    { id := id
      title := input.title
      default_behavior := input.default_behavior
      context_tags := input.context_tags
      counter_contexts := input.counter_contexts
      confidence := 1
      scope := scope
      origin_project := input.origin_project
      validated_in :=
        match input.origin_project with
        | some o => if o.isEmpty then none else some [o]
        | none => none
      exit_criteria := input.exit_criteria
      source_pressures := input.source_pressures
      created_at := now
      updated_at := now }
  let st1 : Store :=
    { st with
        nextFoundationId := st.nextFoundationId + 1
        foundationsFile := some (st.foundationsFile.getD [] ++ [foundation]) }
  let st2 := input.source_pressures.foldl (fun s peId => markPressurePromoted s peId id) st1
  (st2, foundation)

/-- Replace the first foundation with the given id. -/
def replaceFirstF (fid : Str) (upd : Foundation) : List Foundation → List Foundation
  | [] => []
  | f :: fs => if f.id == fid then upd :: fs else f :: replaceFirstF fid upd fs

/-- `updateFoundation` at the call site of `validateFoundation`: merge the
`validated_in`/`confidence` patch into the record, stamp `updated_at`, and
persist; NotFound when the collection file or the id is missing. -/
def updateFoundationVC (st : Store) (fid : Str) (vi : List Str) (conf : Nat)
    (now : Str) : Except StorageErr (Store × Foundation) :=
  match st.foundationsFile with
  | none => .error (.notFound fid)
  | some fs =>
      match fs.find? (fun f => f.id == fid) with
      | none => .error (.notFound fid)
      | some old =>
          let updated := { old with validated_in := some vi, confidence := conf, updated_at := now }
          .ok ({ st with foundationsFile := some (replaceFirstF fid updated fs) }, updated)

/-- Modelled from the spec: `DecisionOSStorage.removeFoundation` is referenced
by `elevateFoundation` and exercised by the test suite but its definition is
not among the provided sources.  Per the spec it returns a boolean indicating
whether an entry was found and removed, and never raises for a missing id or
a missing collection file. -/
def removeFoundation (st : Store) (fid : Str) : Bool × Store :=
  match st.foundationsFile with
  | none => (false, st)
  | some fs =>
      if fs.any (fun f => f.id == fid) then
        (true, { st with foundationsFile := some (fs.filter (fun f => !(f.id == fid))) })
      else (false, st)

/-! ## Retrospective engine (`suggestReview`, candidate clusters) -/

/-- The unpromoted pressure events of all COMPLETED cases, in listing order. -/
def allUnpromoted (cases : List CaseEntry) : List PressureEvent :=
  cases.flatMap (fun e =>
    if e.caseData.status == .COMPLETED then e.pressures.filter (fun p => !pTruthy p)
    else [])

/-- Append a pressure event to the group of one tag in the insertion-ordered
tag map (JS `Map` semantics: existing key keeps its position, new key is
appended). -/
def addToGroups (tag : Str) (pe : PressureEvent) :
    List (Str × List PressureEvent) → List (Str × List PressureEvent)
  | [] => [(tag, [pe])]
  | (t, ps) :: rest =>
      if t == tag then (t, ps ++ [pe]) :: rest
      else (t, ps) :: addToGroups tag pe rest

/-- Build the tag map: every event is pushed into the group of each of its
context tags, once per occurrence of the tag. -/
def buildGroups (pes : List PressureEvent) : List (Str × List PressureEvent) :=
  pes.foldl (fun gs pe => (pe.context_tags.getD []).foldl (fun gs1 t => addToGroups t pe gs1) gs) []

/-- One compression candidate of `suggestReview`. -/
structure Candidate where
  theme : Str
  pressure_events : List Str
  remember_lines : List Str
  shared_tags : List Str
deriving DecidableEq

/-- The candidate built for one tag group: member ids, `id: remember` lines,
and the tags shared by every member. -/
def mkCandidate (tag : Str) (pes : List PressureEvent) : Candidate :=
  { theme := tag
    pressure_events := pes.map (fun p => p.id)
    remember_lines := pes.map (fun p => p.id ++ txt ": " ++ p.remember)
    shared_tags :=
      (dedupFirst (pes.flatMap (fun p => p.context_tags.getD []))).filter
        (fun t => pes.all (fun p => (p.context_tags.getD []).contains t)) }

/-- The dedup key of a group: sorted member ids joined with commas. -/
def groupKey (pes : List PressureEvent) : Str :=
  joinComma (sortStrs (pes.map (fun p => p.id)))

/-- The candidate loop: skip groups below two entries, then dedup by the
sorted-id join. -/
def candLoop (seen : List Str) : List (Str × List PressureEvent) → List Candidate
  | [] => []
  | (tag, pes) :: rest =>
      if pes.length < 2 then candLoop seen rest
      else
        let k := groupKey pes
        if seen.contains k then candLoop seen rest
        else mkCandidate tag pes :: candLoop (k :: seen) rest

/-- The `foundation_candidates` component of `suggestReview`. -/
def suggestReviewCandidates (cases : List CaseEntry) : List Candidate :=
  candLoop [] (buildGroups (allUnpromoted cases))

/-- The occurrence group of one tag: every event repeated once per occurrence
of the tag among its context tags, in event order. -/
def groupList (pes : List PressureEvent) (t : Str) : List PressureEvent :=
  pes.flatMap (fun pe => ((pe.context_tags.getD []).filter (fun s => s == t)).map (fun _ => pe))

/-- Lookup in the insertion-ordered tag map. -/
def lookupG (gs : List (Str × List PressureEvent)) (t : Str) : List PressureEvent :=
  match gs.find? (fun g => g.1 == t) with
  | some g => g.2
  | none => []

/-- The keys of the tag map, in insertion order. -/
def keysOf (gs : List (Str × List PressureEvent)) : List Str := gs.map Prod.fst

/-- The dedup key of a candidate: its member ids sorted and comma-joined. -/
def ckey (c : Candidate) : Str := joinComma (sortStrs c.pressure_events)

/-! ## Hierarchical store (`src/hierarchical-storage.ts`) -/

/-- A `HierarchicalDecisionOSStorage`: the discovered layers are
`project :: rest` (nearest first); `globalPath` is `join(homedir(),
".decision-os")`.  The global layer, when the list has more than one entry,
is the last one. -/
structure HStore where
  project : Store
  rest : List Store
  globalPath : Str
deriving DecidableEq

/-- The layer list, nearest first. -/
def hLayers (h : HStore) : List Store := h.project :: h.rest

/-- `this.globalLayer`: the last layer when more than one was discovered. -/
def hGlobal (h : HStore) : Option Store := h.rest.getLast?

/-- Annotate a foundation with its source layer path and whether that layer
is the user-wide one. -/
def annotateF (layerPath globalPath : Str) (f : Foundation) : FoundationWithSource :=
  { toFoundation := f
    source_layer := layerPath
    source_scope := if layerPath == globalPath then .GLOBAL else .PROJECT }

/-- The inner loop of the merged listing: walk one layer's foundations,
keeping only titles not seen before. -/
def mergeLayer (layerPath globalPath : Str) :
    List Foundation → List Str → List FoundationWithSource →
    List Str × List FoundationWithSource
  | [], seen, merged => (seen, merged)
  | f :: rest, seen, merged =>
      if seen.contains f.title then mergeLayer layerPath globalPath rest seen merged
      else
        mergeLayer layerPath globalPath rest (f.title :: seen)
          (merged ++ [annotateF layerPath globalPath f])

/-- The outer loop of the merged listing over the layer list. -/
def mergeLayers (globalPath : Str) (filters : Option GetFilters) :
    List Store → List Str → List FoundationWithSource → List FoundationWithSource
  | [], _, merged => merged
  | layer :: rest, seen, merged =>
      let r := mergeLayer layer.basePath globalPath (layerGetFoundations layer filters) seen merged
      mergeLayers globalPath filters rest r.1 r.2

/-- `HierarchicalDecisionOSStorage.getFoundations`: iterate layers nearest
first, key by title, first occurrence wins, annotate with provenance. -/
def hGetFoundations (layers : List Store) (globalPath : Str)
    (filters : Option GetFilters) : List FoundationWithSource :=
  mergeLayers globalPath filters layers [] []

/-- Declarative merge (the spec's words): keep, for each title, only its
first occurrence in the nearest-first annotated stream. -/
def firstByTitleAux (seen : List Str) :
    List FoundationWithSource → List FoundationWithSource
  | [] => []
  | f :: rest =>
      if seen.contains f.title then firstByTitleAux seen rest
      else f :: firstByTitleAux (f.title :: seen) rest

/-- Declarative merge entry point. -/
def firstByTitle (l : List FoundationWithSource) : List FoundationWithSource :=
  firstByTitleAux [] l

/-- The seen-title set after one declarative merge pass. -/
def seenAfter (seen : List Str) : List FoundationWithSource → List Str
  | [] => seen
  | f :: rest =>
      if seen.contains f.title then seenAfter seen rest
      else seenAfter (f.title :: seen) rest

/-- The annotated nearest-first stream of all layers' foundations. -/
def annotatedStream (layers : List Store) (globalPath : Str)
    (filters : Option GetFilters) : List FoundationWithSource :=
  layers.flatMap (fun st => (layerGetFoundations st filters).map (annotateF st.basePath globalPath))

/-! ### Conflict detection -/

/-- A reported foundation conflict. -/
structure Conflict where
  title : Str
  global_foundation : Foundation
  project_foundation : Foundation
  recommendation : Str
deriving DecidableEq

/-- Recommendation text of a title-shadowing conflict. -/
def shadowRec (pfTitle : Str) : Str :=
  txt "Project foundation \"" ++ pfTitle ++
    txt "\" shadows global foundation. Project version will be used. Consider if global should be updated or removed."

/-- The overlapping context tags of a project/global pair. -/
def overlapTags (pf gf : Foundation) : List Str :=
  pf.context_tags.filter (fun t => gf.context_tags.contains t)

/-- Recommendation text of a contradictory-guidance conflict. -/
def contradictRec (tags : List Str) : Str :=
  txt "Potential conflict: Both apply to [" ++ joinCommaSpace tags ++
    txt "] but may have contradictory guidance. Review and clarify."

/-- The shadow conflict reported on an exact case-insensitive title match. -/
def mkShadow (pf gf : Foundation) : Conflict :=
  { title := pf.title
    global_foundation := gf
    project_foundation := pf
    recommendation := shadowRec pf.title }

/-- The lexical contradiction heuristic of `detectConflicts`: always/never in
either direction, prefer(project)/avoid(global) in one direction. -/
def contradictoryB (pf gf : Foundation) : Bool :=
  let pfB := lowerStr pf.default_behavior
  let gfB := lowerStr gf.default_behavior
  (hasSub (txt "always") pfB && hasSub (txt "never") gfB) ||
  (hasSub (txt "never") pfB && hasSub (txt "always") gfB) ||
  (hasSub (txt "prefer") pfB && hasSub (txt "avoid") gfB)

/-- The contradiction conflict reported for one project/global pair. -/
def mkContra (pf gf : Foundation) : Conflict :=
  { title := pf.title ++ txt " vs " ++ gf.title
    global_foundation := gf
    project_foundation := pf
    recommendation := contradictRec (overlapTags pf gf) }

/-- The conflicts contributed by one project foundation: a single shadow
conflict with the first case-insensitively matching global record (skipping
all tag checks), else one contradiction conflict per overlapping,
differently-titled, lexically contradictory global record. -/
def conflictsFor (pf : Foundation) (globalFs : List Foundation) : List Conflict :=
  match globalFs.find? (fun gf => lowerStr gf.title == lowerStr pf.title) with
  | some gf => [mkShadow pf gf]
  | none =>
      globalFs.filterMap (fun gf =>
        if 0 < (overlapTags pf gf).length && !(pf.title == gf.title) then
          if contradictoryB pf gf then some (mkContra pf gf) else none
        else none)

/-- `detectConflicts`: empty without a user-wide layer, else the per-project
foundation conflicts against the global collection. -/
def detectConflicts (h : HStore) : List Conflict :=
  match hGlobal h with
  | none => []
  | some g =>
      (layerGetFoundations h.project none).flatMap
        (fun pf => conflictsFor pf (layerGetFoundations g none))

/-! ### Relevance ranking -/

/-- The relevance annotation added by the ranking pass. -/
inductive Relevance
  | directly_relevant
  | general
deriving DecidableEq

/-- A foundation as returned by `getContext`: possibly annotated with
`_relevance` (absent on the unranked path). -/
structure RankedF where
  fws : FoundationWithSource
  relevance : Option Relevance
deriving DecidableEq

/-- The annotation applied to one scored pair by the ranking pass. -/
def rankAnnot (p : FoundationWithSource × Nat) : RankedF :=
  { fws := p.1
    relevance := some (if 0 < p.2 then Relevance.directly_relevant
      else Relevance.general) }

/-- The tag set of the active case: upper-cased affected surfaces and
touched areas (membership-only use of the JS `Set`). -/
def caseTags (c : Case) : List Str :=
  let surfaces :=
    match c.signals with
    | some s => match s.context with
      | some cx => cx.affected_surface.getD []
      | none => []
    | none => []
  let areas :=
    match c.context with
    | some cx => cx.touched_areas.getD []
    | none => []
  (surfaces ++ areas).map upperStr

/-- The overlap score: the count of the foundation's context tags whose
upper-cased form is in the case tag set. -/
def overlapScore (tags : List Str) (f : FoundationWithSource) : Nat :=
  (f.context_tags.filter (fun t => tags.contains (upperStr t))).length

/-- Stable insertion into a descending-by-score list: the new element (which
originally came first) goes before every element with an equal or smaller
score. -/
def insertDesc (x : FoundationWithSource × Nat) :
    List (FoundationWithSource × Nat) → List (FoundationWithSource × Nat)
  | [] => [x]
  | y :: ys => if y.2 ≤ x.2 then x :: y :: ys else y :: insertDesc x ys

/-- The stable descending sort performed by `scored.sort((a, b) => b.overlap -
a.overlap)` (ECMAScript sort is stable). -/
def sortDesc : List (FoundationWithSource × Nat) →
    List (FoundationWithSource × Nat)
  | [] => []
  | x :: xs => insertDesc x (sortDesc xs)

/-- `rankFoundationsByRelevance`: pass foundations through untouched without
an active case or case tags; otherwise score by tag overlap, stable-sort
descending, and annotate. -/
def rankFoundationsByRelevance (foundations : List FoundationWithSource)
    (activeCase : Option Case) : List RankedF :=
  match activeCase with
  | none => foundations.map (fun f => { fws := f, relevance := none })
  | some c =>
      let tags := caseTags c
      if tags.isEmpty then foundations.map (fun f => { fws := f, relevance := none })
      else
        let scored := foundations.map (fun f => (f, overlapScore tags f))
        (sortDesc scored).map (fun p =>
          { fws := p.1
            relevance := some (if 0 < p.2 then .directly_relevant else .general) })

/-! ### Cross-validation and elevation -/

/-- Replace the global layer (the last entry of `rest`). -/
def setGlobalLayer (h : HStore) (g : Store) : HStore :=
  { h with rest := h.rest.dropLast ++ [g] }

/-- The `validated_in` list written by `validateFoundation`: the current
project label is appended when absent. -/
def validatedInAfter (f : Foundation) (project : Str) : List Str :=
  if (f.validated_in.getD []).contains project then f.validated_in.getD []
  else f.validated_in.getD [] ++ [project]

/-- The confidence written by `validateFoundation`: boosted by one (capped at
3) when the resulting list has length at least 3 and confidence is below 3. -/
def confidenceAfter (f : Foundation) (project : Str) : Nat :=
  if 3 ≤ (validatedInAfter f project).length && f.confidence < 3 then
    min 3 (f.confidence + 1)
  else f.confidence

/-- `validateFoundation`: find the record by id in the merged listing, add
the current project to `validated_in` when absent, boost confidence at three
or more validations (capped at 3), and persist to the record's source layer. -/
def hValidateFoundation (h : HStore) (fid : Str) (now : Str) :
    Except StorageErr (HStore × Foundation) :=
  match (hGetFoundations (hLayers h) h.globalPath none).find? (fun f => f.id == fid) with
  | none => .error (.notFound fid)
  | some f =>
      let project := h.project.configProject
      let validatedIn := validatedInAfter f.toFoundation project
      let newConfidence := confidenceAfter f.toFoundation project
      match hGlobal h with
      | some g =>
          if f.source_scope == .GLOBAL then
            match updateFoundationVC g fid validatedIn newConfidence now with
            | .ok (g1, u) => .ok (setGlobalLayer h g1, u)
            | .error e => .error e
          else
            match updateFoundationVC h.project fid validatedIn newConfidence now with
            | .ok (p1, u) => .ok ({ h with project := p1 }, u)
            | .error e => .error e
      | none =>
          match updateFoundationVC h.project fid validatedIn newConfidence now with
          | .ok (p1, u) => .ok ({ h with project := p1 }, u)
          | .error e => .error e

/-- The confidence field of a successful validate/elevate result. -/
def confOf (r : Except StorageErr (HStore × Foundation)) : Option Nat :=
  match r with
  | .ok p => some p.2.confidence
  | .error _ => none

/-- The validated-in field of a successful validate/elevate result. -/
def viOf (r : Except StorageErr (HStore × Foundation)) : Option (Option (List Str)) :=
  match r with
  | .ok p => some p.2.validated_in
  | .error _ => none

/-- The elevation note appended to the body when a truthy reason is given. -/
def elevNote (project reason : Str) : Str :=
  txt "\n\n[Elevated from " ++ project ++ txt ": " ++ reason ++ txt "]"

/-- `elevateFoundation`: require a user-wide layer, find the project record,
re-promote it into the global layer at scope GLOBAL (with the optional
elevation note and the current project as origin), then retire the project
copy via `removeFoundation`. -/
def hElevateFoundation (h : HStore) (fid : Str) (reason : Option Str) (now : Str) :
    Except StorageErr (HStore × Foundation) :=
  match hGlobal h with
  | none => .error .noGlobalLayer
  | some g =>
      match (layerGetFoundations h.project none).find? (fun f => f.id == fid) with
      | none => .error (.notFound fid)
      | some f =>
          let project := h.project.configProject
          let promoted := promoteToFoundation g
            { title := f.title
              default_behavior := f.default_behavior ++
                (match reason with
                 | some r => if r.isEmpty then [] else elevNote project r
                 | none => [])
              context_tags := f.context_tags
              counter_contexts := f.counter_contexts
              source_pressures := f.source_pressures
              exit_criteria := f.exit_criteria
              scope := some .GLOBAL
              origin_project := some project } now
          let removed := removeFoundation h.project fid
          .ok ({ setGlobalLayer h promoted.1 with project := removed.2 }, promoted.2)

/-! ### Merged context -/

/-- The result of the hierarchical `getContext` (the fields the claims are
about; `project` and `layers` are plain copies of configuration). -/
structure ContextResult where
  project : Str
  active_case : Option Case
  recent_pressures : List PressureEvent
  relevant_foundations : List RankedF
  conflicts : List Conflict
  layers : List Str
deriving DecidableEq

/-- JS `slice(-5)`. -/
def lastFive (l : List PressureEvent) : List PressureEvent :=
  l.drop (l.length - 5)

/-- `HierarchicalDecisionOSStorage.getContext`: resolve the active case, list
its pressures, merge all foundations, keep those with confidence at least 1,
detect conflicts, and rank the kept foundations by relevance. -/
def hGetContext (h : HStore) : ContextResult :=
  let activeCase :=
    match h.project.activeCase with
    | some cid => getCase h.project cid
    | none => none
  let recentPressures :=
    match activeCase with
    | some c => getPressureEvents h.project c.id
    | none => []
  let allFoundations := hGetFoundations (hLayers h) h.globalPath none
  let active := allFoundations.filter (fun f => 1 ≤ f.confidence)
  { project := h.project.configProject
    active_case := activeCase
    recent_pressures := lastFive recentPressures
    relevant_foundations := rankFoundationsByRelevance active activeCase
    conflicts := detectConflicts h
    layers := (hLayers h).map (fun l => l.basePath) }

/-! ## Concrete stores used by witnesses and counterexamples -/

/-- A tiny pressure event for concrete scenarios. -/
def peW (i : Nat) (tags : List Str) (prom : Option Str) : PressureEvent :=
  { id := txt "PE-000" ++ natChars i
    timestamp := txt "t0"
    case_id := txt "0001-w"
    pressure_type := none
    context_tags := some tags
    expected := txt "x"
    actual := txt "y"
    adaptation := txt "z"
    remember := txt "w"
    outcome := none
    promoted_to_foundation := prom }

/-- Outcome signals for concrete scenarios. -/
def outW (regret : Str) : OutcomeSignals :=
  { regressions := none, rework_within_14d := none, regret := regret, notes := none }

/-- Case signals holding only an outcome. -/
def sigW (regret : Str) : CaseSignals :=
  { context := none, execution := none, outcome := some (outW regret) }

/-- A tiny case for concrete scenarios. -/
def caseW (st : CaseStatus) (regret : Str) : Case :=
  { id := txt "0001-w"
    title := txt "w"
    goal := none
    status := st
    created_at := txt "t0"
    completed_at := none
    context := none
    signals := some (sigW regret)
    pressure_events := some [] }

/-- A layer store holding the given cases and foundations. -/
def storeW (cases : List CaseEntry) (fs : Option (List Foundation)) : Store :=
  { basePath := txt "/p/.decision-os"
    configProject := txt "proj"
    activeCase := none
    nextCaseId := 1
    nextPressureId := 1
    nextFoundationId := 1
    cases := cases
    foundationsFile := fs }

/-- A tiny foundation for concrete scenarios. -/
def foundW (id title behavior : Str) (tags : List Str) (conf : Nat)
    (vi : Option (List Str)) : Foundation :=
  { id := id
    title := title
    default_behavior := behavior
    context_tags := tags
    counter_contexts := none
    confidence := conf
    scope := .PROJECT
    origin_project := none
    validated_in := vi
    exit_criteria := none
    source_pressures := [txt "PE-0001"]
    created_at := txt "t0"
    updated_at := txt "t0" }

/-- C1 witness case entry: one promoted pressure event. -/
def entryW1 : CaseEntry :=
  { caseData := caseW .ACTIVE (txt "0")
    pressures := [peW 1 [txt "T"] (some (txt "F-0001"))] }

/-- C1 witness store. -/
def stW1 : Store := storeW [entryW1] none

/-- C10 witness: a confidence-0 foundation. -/
def fW10a : Foundation := foundW (txt "F-0001") (txt "A") (txt "b") [txt "X"] 0 none

/-- C10 witness: a confidence-1 foundation. -/
def fW10b : Foundation := foundW (txt "F-0002") (txt "B") (txt "b") [txt "X"] 1 none

/-- C10 witness store holding both foundations. -/
def stW10 : Store := storeW [] (some [fW10a, fW10b])

/-- C10 witness hierarchical store (single project layer). -/
def hW10 : HStore := { project := stW10, rest := [], globalPath := txt "/g" }

/-- C10 witness ranked entry: the confidence-1 record as returned unranked. -/
def rW10 : RankedF :=
  { fws := annotateF (txt "/p/.decision-os") (txt "/g") fW10b, relevance := none }

/-- The claim's identifier pattern, the regex `^\\d{4}-[a-z0-9-]+$`: exactly
four digits, a hyphen, then a non-empty slug. -/
def matchesClaimCaseId (l : Str) : Bool :=
  match l with
  | a :: b :: c :: d :: '-' :: rest =>
      isDig a && isDig b && isDig c && isDig d && !rest.isEmpty && rest.all slugChar
  | _ => false

/-- A `createCase` input holding only a title. -/
def titleOnly (t : String) : CreateCaseInput :=
  { title := txt t, goal := none, signals := none, touched_areas := none }

/-- C3 witness: a project-scope foundation titled "Use X". -/
def fwP : Foundation := foundW (txt "F-0001") (txt "Use X") (txt "pb") [txt "T"] 1 none

/-- C3 witness: a global foundation sharing the title "Use X". -/
def fwG : Foundation := foundW (txt "GF-0001") (txt "Use X") (txt "gb") [txt "T"] 1 none

/-- C3 witness project layer. -/
def projW3 : Store := storeW [] (some [fwP])

/-- C3 witness global layer at the user-wide path. -/
def globW3 : Store := { storeW [] (some [fwG]) with basePath := txt "/g/.decision-os" }

/-- C5 witness: a UI-tagged foundation, annotated. -/
def fwUI : FoundationWithSource :=
  annotateF (txt "/p/.decision-os") (txt "/g")
    (foundW (txt "F-0001") (txt "UI pattern") (txt "b") [txt "UI_UX", txt "FRONTEND"] 1 none)

/-- C5 witness: a data-model-tagged foundation, annotated. -/
def fwDM : FoundationWithSource :=
  annotateF (txt "/p/.decision-os") (txt "/g")
    (foundW (txt "F-0002") (txt "Data modeling pattern") (txt "b")
      [txt "DATA_MODEL", txt "BACKEND"] 1 none)

/-- C5 witness: an active case touching the data model. -/
def caseW5 : Case :=
  { id := txt "0001-db"
    title := txt "db"
    goal := none
    status := .ACTIVE
    created_at := txt "t0"
    completed_at := none
    context := none
    signals := some
      { context := some
          { risk_level := none, reversibility := none, change_frequency := none,
            affected_surface := some [txt "DATA_MODEL", txt "BACKEND"],
            novelty := none, repo_scope := none }
        execution := none
        outcome := none }
    pressure_events := some [] }

/-- C4 project foundation "Alpha", behaviour containing "always". -/
def pf1C4 : Foundation := foundW (txt "F-0001") (txt "Alpha") (txt "always x") [txt "T"] 1 none

/-- C4 project foundation "Beta", behaviour containing "avoid". -/
def pf2C4 : Foundation := foundW (txt "F-0002") (txt "Beta") (txt "avoid y") [txt "U"] 1 none

/-- C4 project foundation "Eps", behaviour containing "prefer". -/
def pf3C4 : Foundation := foundW (txt "F-0003") (txt "Eps") (txt "prefer z") [txt "V"] 1 none

/-- C4 global foundation "alpha" (case-insensitive title match with "Alpha"). -/
def gf1C4 : Foundation := foundW (txt "GF-0001") (txt "alpha") (txt "never z") [] 1 none

/-- C4 global foundation "ALPHA" (a second case-insensitive match). -/
def gf2C4 : Foundation := foundW (txt "GF-0002") (txt "ALPHA") (txt "w") [] 1 none

/-- C4 global foundation "Gamma", tagged T, behaviour containing "never". -/
def gf3C4 : Foundation := foundW (txt "GF-0003") (txt "Gamma") (txt "never q") [txt "T"] 1 none

/-- C4 global foundation "Delta", tagged U, behaviour containing "prefer". -/
def gf4C4 : Foundation := foundW (txt "GF-0004") (txt "Delta") (txt "prefer y") [txt "U"] 1 none

/-- C4 global foundation "Zeta", tagged V, behaviour containing "avoid". -/
def gf5C4 : Foundation := foundW (txt "GF-0005") (txt "Zeta") (txt "avoid z") [txt "V"] 1 none

/-- C4 counterexample hierarchical store. -/
def hC4 : HStore :=
  { project := storeW [] (some [pf1C4, pf2C4])
    rest := [{ storeW [] (some [gf1C4, gf2C4, gf3C4, gf4C4]) with
      basePath := txt "/g/.decision-os" }]
    globalPath := txt "/g/.decision-os" }

/-- C4 witness hierarchical store. -/
def hW4 : HStore :=
  { project := storeW [] (some [pf1C4, pf3C4])
    rest := [{ storeW [] (some [gf1C4, gf5C4]) with
      basePath := txt "/g/.decision-os" }]
    globalPath := txt "/g/.decision-os" }

/-- C6 counterexample foundation: its validated-in list carries a duplicate
label ("proj" twice), as a hand-edited collection file may. -/
def fdupC6 : Foundation :=
  foundW (txt "F-0001") (txt "T6") (txt "b") [txt "X"] 1
    (some [txt "proj", txt "proj", txt "q"])

/-- C6 counterexample hierarchical store (project layer only). -/
def hC6 : HStore :=
  { project := storeW [] (some [fdupC6]), rest := [], globalPath := txt "/g" }

/-- C6 witness: a GLOBAL-scope foundation in the user-wide layer. -/
def fW6g : Foundation :=
  { foundW (txt "GF-0001") (txt "G6") (txt "b") [txt "X"] 1 none with scope := .GLOBAL }

/-- C6 witness hierarchical store: one project record, one global record. -/
def hW6 : HStore :=
  { project := storeW [] (some [foundW (txt "F-0001") (txt "P6") (txt "b") [txt "X"] 1 none])
    rest := [{ storeW [] (some [fW6g]) with basePath := txt "/g/.decision-os" }]
    globalPath := txt "/g/.decision-os" }

/-- C7 foundation: confidence 3, validated in three projects. -/
def fC7 : Foundation :=
  foundW (txt "F-0001") (txt "T7") (txt "b") [txt "X"] 3
    (some [txt "a", txt "b", txt "c"])

/-- C7 hierarchical store: the record above plus an empty user-wide layer. -/
def hC7 : HStore :=
  { project := storeW [] (some [fC7])
    rest := [{ storeW [] (some []) with basePath := txt "/g/.decision-os" }]
    globalPath := txt "/g/.decision-os" }

/-- C9 counterexample case: one completed case with a single unpromoted event
carrying tag T twice and tag U three times. -/
def entC9 : CaseEntry :=
  { caseData := caseW .COMPLETED (txt "1")
    pressures := [peW 1 [txt "T", txt "T", txt "U", txt "U", txt "U"] none] }

/-- C9 witness case: two unpromoted events sharing tag T. -/
def entW9 : CaseEntry :=
  { caseData := caseW .COMPLETED (txt "1")
    pressures := [peW 1 [txt "T"] none, peW 2 [txt "T"] none] }

/-- C2 counterexample store: the in-memory counter has reached 10000. -/
def stC2 : Store := { storeW [] none with nextCaseId := 10000 }

/-- The amended identifier pattern, the regex `^\\d{4,}-[a-z0-9-]*$`: at least
four digits (the zero-padded sequence number, widening past 9999), a hyphen,
then a possibly-empty slug. -/
def matchesAmendedCaseId (l : Str) : Bool :=
  4 ≤ (l.takeWhile isDig).length &&
    (match l.dropWhile isDig with
     | '-' :: rest => rest.all slugChar
     | _ => false)

end DecisionOS

namespace DecisionOS

/-! ## General list lemmas -/

theorem find?_map_of_pred_inv {α : Type} (f : α → α) (p : α → Bool) (l : List α)
    (h : ∀ a, p (f a) = p a) : (l.map f).find? p = (l.find? p).map f := by
  induction l with
  | nil => rfl
  | cons a t ih =>
      simp only [List.map_cons, List.find?, h a]
      cases hpa : p a <;> simp [ih]

theorem find?_filter_not {α : Type} (p : α → Bool) (l : List α) :
    (l.filter (fun a => !(p a))).find? p = none := by
  induction l with
  | nil => rfl
  | cons a t ih => by_cases hpa : p a <;> simp [List.filter_cons, hpa, List.find?, ih]

theorem getPressureEvents_congr (stX : Store) (caseId : Str) (e : CaseEntry)
    (h : findCaseEntry stX caseId = some e) :
    getPressureEvents stX caseId = e.pressures := by
  unfold getPressureEvents
  rw [h]

theorem isEmpty_or_all {α : Type} (l : List α) (p : α → Bool) :
    (l.isEmpty || l.all p) = l.all p := by
  cases l <;> rfl

/-! ## C1: auto-forget on close -/

/-- C1: closing an existing case whose regret normalizes to "0" deletes the
case together with its divergence records and reports `forgotten = true`
exactly when every owned record has a truthy promoted-to field (vacuously
when it owns none); otherwise the case is retained with status COMPLETED and
`forgotten = false`; a regret normalizing to "1", "2" or "3" never deletes
and always reports `forgotten = false`. -/
theorem closeCase_autoForget (st : Store) (caseId : Str) (outcome : CloseOutcome)
    (now : Str) (entry : CaseEntry)
    (hfind : findCaseEntry st caseId = some entry)
    (hreg : validRegretStr (normalizeRegret outcome.regret) = true)
    (hregr : validRegressions outcome.regressions = true) :
    ∃ st' c forgotten,
      closeCase st caseId outcome now = .ok (st', c, forgotten) ∧
      c.status = .COMPLETED ∧
      (normalizeRegret outcome.regret = txt "0" →
        (entry.pressures.all pTruthy = true →
          forgotten = true ∧ findCaseEntry st' caseId = none) ∧
        (entry.pressures.all pTruthy = false →
          forgotten = false ∧ ∃ e', findCaseEntry st' caseId = some e' ∧
            e'.caseData.status = .COMPLETED ∧ e'.pressures = entry.pressures)) ∧
      (normalizeRegret outcome.regret ≠ txt "0" →
        forgotten = false ∧ ∃ e', findCaseEntry st' caseId = some e' ∧
          e'.caseData.status = .COMPLETED) := by
  have hfind' : st.cases.find? (fun e => e.caseData.id == caseId) = some entry := hfind
  have hpe : (entry.caseData.id == caseId) = true := by
    have h2 := List.find?_some (p := fun (e : CaseEntry) => e.caseData.id == caseId) hfind'
    simpa using h2
  have hcond : (validRegretStr (normalizeRegret outcome.regret) &&
      validRegressions outcome.regressions) = true := by rw [hreg, hregr]; rfl
  have hfmap :
      (st.cases.map (fun e =>
        if e.caseData.id == caseId then
          { e with caseData :=
              (applyCloseUpdate e.caseData (normalizeRegret outcome.regret)
                outcome.notes outcome.regressions now) }
        else e)).find? (fun e => e.caseData.id == caseId) =
      some { entry with caseData :=
        (applyCloseUpdate entry.caseData (normalizeRegret outcome.regret)
          outcome.notes outcome.regressions now) } := by
    rw [find?_map_of_pred_inv _ _ _ ?h, hfind']
    case h =>
      intro a
      by_cases h : (a.caseData.id == caseId) = true
      · rw [if_pos h]
        rfl
      · rw [if_neg h]
    · rw [Option.map_some']
      rw [if_pos hpe]
  unfold closeCase
  rw [hfind]
  simp only [hcond, if_true]
  set m := st.cases.map (fun e =>
    if e.caseData.id == caseId then
      { e with caseData :=
          (applyCloseUpdate e.caseData (normalizeRegret outcome.regret)
            outcome.notes outcome.regressions now) }
    else e) with hm
  set st2 := (if (st.activeCase == some caseId) = true
    then setActiveCase { st with cases := m } none
    else { st with cases := m }) with hst2
  have hst2cases : st2.cases = m := by
    rw [hst2]
    split
    · rfl
    · rfl
  have hfind2 : findCaseEntry st2 caseId = some { entry with caseData :=
      (applyCloseUpdate entry.caseData (normalizeRegret outcome.regret)
        outcome.notes outcome.regressions now) } := by
    unfold findCaseEntry
    rw [hst2cases]
    exact hfmap
  have hp : getPressureEvents st2 caseId = entry.pressures := by
    unfold getPressureEvents
    rw [hfind2]
  by_cases h0 : normalizeRegret outcome.regret = txt "0"
  · have hb0 : (normalizeRegret outcome.regret == txt "0") = true := by simp [h0]
    simp only [hb0, if_true]
    rw [hp, isEmpty_or_all]
    by_cases hall : entry.pressures.all pTruthy = true
    · simp only [hall, if_true]
      refine ⟨_, _, _, rfl, rfl, ?_, ?_⟩
      · intro _
        refine ⟨fun _ => ⟨rfl, ?_⟩, fun hf => ?_⟩
        · unfold findCaseEntry forgetCase
          dsimp only
          rw [hst2cases]
          exact find?_filter_not _ _
        · exact absurd hf (by simp)
      · intro hne
        exact absurd h0 hne
    · simp only [hall, Bool.false_eq_true, if_false]
      refine ⟨_, _, _, rfl, rfl, ?_, ?_⟩
      · intro _
        exact ⟨fun ht => ht.elim, fun _ => ⟨rfl, _, hfind2, rfl, rfl⟩⟩
      · intro hne
        exact absurd h0 hne
  · have hb0 : (normalizeRegret outcome.regret == txt "0") = false := by simp [h0]
    simp only [hb0, Bool.false_eq_true, if_false]
    exact ⟨_, _, _, rfl, rfl, fun habs => absurd habs h0, fun _ => ⟨rfl, _, hfind2, rfl⟩⟩


/-- C1 witness scenario: one active case owning a single promoted event. -/
theorem closeCase_autoForget_witness :
    ∃ st' c forgotten,
      closeCase stW1 (txt "0001-w")
          { regret := .num 0, notes := none, regressions := none } (txt "t1") =
        .ok (st', c, forgotten) ∧
      forgotten = true ∧ findCaseEntry st' (txt "0001-w") = none := by
  obtain ⟨st', c, f, heq, hst, h0imp, hnimp⟩ :=
    closeCase_autoForget stW1 (txt "0001-w")
      { regret := .num 0, notes := none, regressions := none } (txt "t1")
      entryW1 (by decide) (by decide) (by decide)
  obtain ⟨h1, h2⟩ := h0imp (by decide)
  obtain ⟨hf, hnone⟩ := h1 (by decide)
  exact ⟨st', c, f, heq, hf, hnone⟩

/-! ## C8: removeFoundation total behaviour (spec-modelled) -/

/-- C8: `removeFoundation` returns `true` exactly when the collection file
exists and holds an entry with the given id (which is then removed), returns
`false` leaving the store untouched otherwise, and — being a total function
of the store — raises in neither case.  (The operation is absent from the
provided sources and is modelled from the spec.) -/
theorem removeFoundation_spec (st : Store) (fid : Str) :
    ((removeFoundation st fid).1 = true ↔
      ∃ fs, st.foundationsFile = some fs ∧ ∃ f ∈ fs, f.id = fid) ∧
    ((removeFoundation st fid).1 = false → (removeFoundation st fid).2 = st) ∧
    ((removeFoundation st fid).1 = true →
      ∃ fs, st.foundationsFile = some fs ∧
        (removeFoundation st fid).2 =
          { st with foundationsFile := some (fs.filter (fun f => !(f.id == fid))) }) := by
  unfold removeFoundation
  cases hfs : st.foundationsFile with
  | none => simp
  | some fs =>
      dsimp only
      by_cases ha : fs.any (fun f => f.id == fid) = true
      · simp only [ha, if_true]
        refine ⟨?_, ?_, ?_⟩
        · constructor
          · intro _
            refine ⟨fs, rfl, ?_⟩
            obtain ⟨f, hmem, hbeq⟩ := List.any_eq_true.mp ha
            exact ⟨f, hmem, by simpa using hbeq⟩
          · intro _
            trivial
        · intro h
          exact absurd h (by simp)
        · intro _
          exact ⟨fs, rfl, rfl⟩
      · simp only [ha, if_false]
        refine ⟨?_, ?_, ?_⟩
        · constructor
          · intro h
            exact absurd h (by simp)
          · rintro ⟨fs', hfs', f, hmem, hid⟩
            injection hfs' with hfseq
            subst hfseq
            exact absurd (List.any_eq_true.mpr ⟨f, hmem, by simp [hid]⟩) ha
        · intro _
          rfl
        · intro h
          exact absurd h (by simp)
/-- C8 witness: a store with one foundation; removing it reports `true`,
removing a missing id reports `false`. -/
theorem removeFoundation_spec_witness :
    (removeFoundation (storeW [] (some [foundW (txt "F-0001") (txt "T") (txt "b")
        [txt "X"] 1 none])) (txt "F-0001")).1 = true ∧
    (removeFoundation (storeW [] none) (txt "F-0001")).1 = false := by
  constructor
  · exact (removeFoundation_spec (storeW [] (some [foundW (txt "F-0001") (txt "T") (txt "b")
      [txt "X"] 1 none])) (txt "F-0001")).1.mpr
      ⟨_, rfl, _, List.mem_singleton.mpr rfl, rfl⟩
  · have h := (removeFoundation_spec (storeW [] none) (txt "F-0001")).1
    by_contra hc
    have : (removeFoundation (storeW [] none) (txt "F-0001")).1 = true := by
      revert hc
      decide
    obtain ⟨fs, hfs, -⟩ := h.mp this
    exact Option.noConfusion hfs

/-! ## C10: confidence filtering in getContext -/

theorem mem_insertDesc {x a : FoundationWithSource × Nat}
    {l : List (FoundationWithSource × Nat)} (h : a ∈ insertDesc x l) :
    a = x ∨ a ∈ l := by
  induction l with
  | nil => simpa [insertDesc] using h
  | cons y ys ih =>
      by_cases hc : y.2 ≤ x.2
      · simpa [insertDesc, hc] using h
      · simp only [insertDesc, if_neg hc, List.mem_cons] at h
        rcases h with h | h
        · exact Or.inr (List.mem_cons.mpr (Or.inl h))
        · rcases ih h with h1 | h1
          · exact Or.inl h1
          · exact Or.inr (List.mem_cons_of_mem _ h1)

theorem mem_sortDesc {a : FoundationWithSource × Nat}
    {l : List (FoundationWithSource × Nat)} (h : a ∈ sortDesc l) : a ∈ l := by
  induction l generalizing a with
  | nil => simp [sortDesc] at h
  | cons x xs ih =>
      rcases mem_insertDesc (l := sortDesc xs) h with h1 | h1
      · exact h1 ▸ List.mem_cons_self x xs
      · exact List.mem_cons_of_mem _ (ih h1)

theorem rank_mem (fs : List FoundationWithSource) (ac : Option Case) (r : RankedF)
    (h : r ∈ rankFoundationsByRelevance fs ac) : r.fws ∈ fs := by
  unfold rankFoundationsByRelevance at h
  cases ac with
  | none =>
      obtain ⟨f, hf, rfl⟩ := List.mem_map.mp h
      exact hf
  | some c =>
      dsimp only at h
      by_cases ht : (caseTags c).isEmpty = true
      · rw [if_pos ht] at h
        obtain ⟨f, hf, rfl⟩ := List.mem_map.mp h
        exact hf
      · rw [if_neg ht] at h
        obtain ⟨p, hp, rfl⟩ := List.mem_map.mp h
        have hp2 := mem_sortDesc hp
        obtain ⟨f, hf, rfl⟩ := List.mem_map.mp hp2
        exact hf

/-- C10: the hierarchical `getContext` filters by confidence before ranking —
no returned relevant foundation has confidence 0, for every store state and
active case — even though the unfiltered layer listing returns confidence-0
records when no minimum-confidence filter is given. -/
theorem getContext_confidence_filter :
    (∀ (h : HStore) (r : RankedF),
      r ∈ (hGetContext h).relevant_foundations → 1 ≤ r.fws.confidence) ∧
    (∀ (st : Store) (fs : List Foundation) (f : Foundation),
      st.foundationsFile = some fs → f ∈ fs → f ∈ layerGetFoundations st none) := by
  constructor
  · intro h r hr
    have hmem : r.fws ∈ (hGetFoundations (hLayers h) h.globalPath none).filter
        (fun f => 1 ≤ f.confidence) := by
      exact rank_mem _ _ _ hr
    have := List.mem_filter.mp hmem
    exact of_decide_eq_true this.2
  · intro st fs f hfs hf
    unfold layerGetFoundations
    rw [hfs]
    exact hf

/-- C10 witness: in a store holding a confidence-0 and a confidence-1 record,
the confidence-1 record survives into the (unranked) context listing with
confidence at least 1, while the plain listing does return the confidence-0
record. -/
theorem getContext_confidence_filter_witness :
    1 ≤ rW10.fws.confidence ∧ fW10a ∈ layerGetFoundations stW10 none := by
  constructor
  · exact getContext_confidence_filter.1 hW10 rW10 (by decide)
  · exact getContext_confidence_filter.2 stW10 [fW10a, fW10b] fW10a rfl (by decide)

/-! ## C2: digit lemmas -/

theorem isDig_digitChar (d : Nat) : isDig (digitChar d) = true := by
  match d with
  | 0 | 1 | 2 | 3 | 4 | 5 | 6 | 7 | 8 => decide
  | n + 9 =>
      have h : digitChar (n + 9) = '9' := rfl
      rw [h]
      decide

theorem charVal_digitChar (d : Nat) (h : d < 10) : charVal (digitChar d) = d := by
  interval_cases d <;> decide

theorem natCharsGo_append (fuel : Nat) : ∀ (n : Nat) (acc : Str),
    natCharsGo fuel n acc = natCharsGo fuel n [] ++ acc := by
  induction fuel with
  | zero => intro n acc; rfl
  | succ fuel ih =>
      intro n acc
      by_cases h : n < 10
      · simp [natCharsGo, h]
      · rw [natCharsGo, natCharsGo, if_neg h, if_neg h, ih (n / 10) (digitChar (n % 10) :: acc),
          ih (n / 10) [digitChar (n % 10)]]
        simp

theorem natCharsGo_digits (fuel : Nat) : ∀ (n : Nat) (c : Char),
    c ∈ natCharsGo fuel n [] → isDig c = true := by
  induction fuel with
  | zero => intro n c hc; simp [natCharsGo] at hc
  | succ fuel ih =>
      intro n c hc
      by_cases h : n < 10
      · rw [natCharsGo, if_pos h] at hc
        simp at hc
        rw [hc]
        exact isDig_digitChar n
      · rw [natCharsGo, if_neg h, natCharsGo_append] at hc
        rcases List.mem_append.mp hc with h1 | h1
        · exact ih _ _ h1
        · simp at h1
          rw [h1]
          exact isDig_digitChar _

theorem parseGo_append_digits (l1 : Str) : ∀ (a : Nat) (l2 : Str),
    (∀ c ∈ l1, isDig c = true) → parseGo a (l1 ++ l2) = parseGo (parseGo a l1) l2 := by
  induction l1 with
  | nil => intro a l2 _; rfl
  | cons c cs ih =>
      intro a l2 hd
      have hc : isDig c = true := hd c (List.mem_cons_self c cs)
      rw [List.cons_append, parseGo, parseGo, if_pos hc, if_pos hc]
      exact ih _ _ (fun x hx => hd x (List.mem_cons_of_mem c hx))

theorem parseGo_natCharsGo (fuel : Nat) : ∀ (n a : Nat), n < 10 ^ fuel →
    parseGo a (natCharsGo fuel n []) = a * 10 ^ (natCharsGo fuel n []).length + n := by
  induction fuel with
  | zero =>
      intro n a hn
      interval_cases n
      simp [natCharsGo, parseGo]
  | succ fuel ih =>
      intro n a hn
      by_cases h : n < 10
      · rw [natCharsGo, if_pos h]
        rw [parseGo, if_pos (isDig_digitChar n), parseGo, charVal_digitChar n h]
        simp
      · rw [natCharsGo, if_neg h, natCharsGo_append]
        rw [parseGo_append_digits _ _ _ (fun c hc => natCharsGo_digits fuel (n / 10) c hc)]
        have hdiv : n / 10 < 10 ^ fuel := by
          rw [Nat.div_lt_iff_lt_mul (by norm_num)]
          calc n < 10 ^ (fuel + 1) := hn
            _ = 10 ^ fuel * 10 := by ring
        rw [ih (n / 10) a hdiv]
        rw [parseGo, if_pos (isDig_digitChar (n % 10)), parseGo,
          charVal_digitChar (n % 10) (Nat.mod_lt n (by norm_num))]
        simp only [List.length_append, List.length_cons, List.length_nil, pow_succ]
        ring_nf
        omega

theorem parseGo_replicate_zero (k : Nat) : ∀ a, parseGo a (List.replicate k '0') = a * 10 ^ k := by
  induction k with
  | zero => intro a; simp [parseGo]
  | succ k ih =>
      intro a
      rw [List.replicate_succ, parseGo, if_pos (by decide : isDig '0' = true), ih]
      have hv : charVal '0' = 0 := by decide
      rw [hv]
      ring

theorem replicate_zero_digits (k : Nat) : ∀ c ∈ List.replicate k '0', isDig c = true := by
  intro c hc
  rw [List.eq_of_mem_replicate hc]
  decide

theorem n_lt_ten_pow (n : Nat) : n < 10 ^ (n + 1) :=
  lt_of_lt_of_le (Nat.lt_pow_self (by norm_num) n)
    (Nat.pow_le_pow_right (by norm_num) (Nat.le_succ n))

theorem padTo4_digits (n : Nat) : ∀ c ∈ padTo4 (natChars n), isDig c = true := by
  intro c hc
  unfold padTo4 at hc
  rcases List.mem_append.mp hc with h1 | h1
  · exact replicate_zero_digits _ c h1
  · exact natCharsGo_digits _ _ c h1

theorem parseLead_caseId (n : Nat) (rest : Str) :
    parseLead (padTo4 (natChars n) ++ '-' :: rest) = n := by
  unfold parseLead padTo4 natChars
  rw [List.append_assoc,
    parseGo_append_digits _ _ _ (replicate_zero_digits _),
    parseGo_replicate_zero, Nat.zero_mul,
    parseGo_append_digits _ _ _ (fun c hc => natCharsGo_digits (n + 1) n c hc),
    parseGo_natCharsGo (n + 1) n _ (n_lt_ten_pow n), Nat.zero_mul, Nat.zero_add,
    parseGo, if_neg (by decide)]

theorem collapseGo_chars (fuel : Nat) : ∀ (l : Str) (c : Char),
    c ∈ collapseGo fuel l → slugChar c = true := by
  induction fuel with
  | zero => intro l c hc; simp [collapseGo] at hc
  | succ fuel ih =>
      intro l c hc
      match l with
      | [] => simp [collapseGo] at hc
      | c0 :: cs =>
          rw [collapseGo] at hc
          by_cases h : isLowerAlnumChar c0 = true
          · rw [if_pos h] at hc
            rcases List.mem_cons.mp hc with rfl | h1
            · simp [slugChar, h]
            · exact ih _ _ h1
          · rw [if_neg h] at hc
            rcases List.mem_cons.mp hc with rfl | h1
            · rfl
            · exact ih _ _ h1

theorem slugify_chars (t : Str) : ∀ c ∈ slugify t, slugChar c = true := by
  intro c hc
  unfold slugify trimHyphens at hc
  have h1 := List.take_subset _ _ hc
  have h2 := List.mem_reverse.mp h1
  have h3 := (List.dropWhile_sublist _).subset h2
  have h4 := List.mem_reverse.mp h3
  have h5 := (List.dropWhile_sublist _).subset h4
  exact collapseGo_chars _ _ c h5

theorem matchesAmended_mkCaseId (n : Nat) (title : Str) :
    matchesAmendedCaseId (mkCaseId n title) = true := by
  unfold matchesAmendedCaseId mkCaseId
  rw [List.takeWhile_append_of_pos (by simpa using padTo4_digits n),
    List.dropWhile_append_of_pos (by simpa using padTo4_digits n)]
  rw [List.takeWhile_cons, List.dropWhile_cons_of_neg (by decide)]
  have hd : isDig '-' = false := by decide
  rw [hd]
  simp only [Bool.false_eq_true, if_false, List.append_nil]
  have hlen : 4 ≤ (padTo4 (natChars n)).length := by
    unfold padTo4
    rw [List.length_append, List.length_replicate]
    omega
  rw [Bool.and_eq_true]
  constructor
  · simpa using hlen
  · rw [List.all_eq_true]
    intro c hc
    exact slugify_chars title c hc

theorem closeMap_id (caseId norm : Str) (notes regressions : Option Str) (now : Str)
    (e : CaseEntry) :
    (if e.caseData.id == caseId then
      { e with caseData := (applyCloseUpdate e.caseData norm notes regressions now) }
     else e).caseData.id = e.caseData.id := by
  by_cases h : (e.caseData.id == caseId) = true
  · rw [if_pos h]
    rfl
  · rw [if_neg h]

theorem closeCase_cases_ids (st : Store) (caseId : Str) (outcome : CloseOutcome)
    (now : Str) (st2 : Store) (c : Case) (b : Bool)
    (h : closeCase st caseId outcome now = .ok (st2, c, b)) :
    st2.nextCaseId = st.nextCaseId ∧
    ∀ e ∈ st2.cases, ∃ e0 ∈ st.cases, e.caseData.id = e0.caseData.id := by
  unfold closeCase at h
  cases hf : findCaseEntry st caseId with
  | none =>
      rw [hf] at h
      simp at h
  | some entry =>
      rw [hf] at h
      dsimp only at h
      by_cases hg : (validRegretStr (normalizeRegret outcome.regret) &&
          validRegressions outcome.regressions) = true
      · rw [if_pos hg] at h
        set m := st.cases.map (fun e =>
          if e.caseData.id == caseId then
            { e with caseData :=
                (applyCloseUpdate e.caseData (normalizeRegret outcome.regret)
                  outcome.notes outcome.regressions now) }
          else e) with hm
        have hmem : ∀ (e : CaseEntry), e ∈ m →
            ∃ e0 ∈ st.cases, e.caseData.id = e0.caseData.id := by
          intro e he
          rw [hm] at he
          obtain ⟨e0, he0, rfl⟩ := List.mem_map.mp he
          exact ⟨e0, he0, closeMap_id _ _ _ _ _ _⟩
        set stX := (if (st.activeCase == some caseId) = true
          then setActiveCase { st with cases := m } none
          else { st with cases := m }) with hstX
        have hXcases : stX.cases = m := by
          rw [hstX]
          split
          · rfl
          · rfl
        have hXnext : stX.nextCaseId = st.nextCaseId := by
          rw [hstX]
          split
          · rfl
          · rfl
        by_cases hb0 : (normalizeRegret outcome.regret == txt "0") = true
        · rw [if_pos hb0] at h
          by_cases hap : ((getPressureEvents stX caseId).isEmpty ||
              (getPressureEvents stX caseId).all pTruthy) = true
          · rw [if_pos hap] at h
            simp only [Except.ok.injEq, Prod.mk.injEq] at h
            obtain ⟨h1, -, -⟩ := h
            subst h1
            refine ⟨hXnext, fun e he => ?_⟩
            have he2 : e ∈ stX.cases := List.mem_of_mem_filter he
            rw [hXcases] at he2
            exact hmem e he2
          · rw [if_neg hap] at h
            simp only [Except.ok.injEq, Prod.mk.injEq] at h
            obtain ⟨h1, -, -⟩ := h
            subst h1
            refine ⟨hXnext, fun e he => ?_⟩
            rw [hXcases] at he
            exact hmem e he
        · rw [if_neg hb0] at h
          simp only [Except.ok.injEq, Prod.mk.injEq] at h
          obtain ⟨h1, -, -⟩ := h
          subst h1
          refine ⟨hXnext, fun e he => ?_⟩
          rw [hXcases] at he
          exact hmem e he
      · rw [if_neg hg] at h
        simp at h

/-- C2 (amended): every identifier assigned by `createCase` consists of the
decimal sequence number zero-padded to at least four digits (widening past
9999), a hyphen, and a possibly-empty slug of lower-case alphanumerics and
hyphens (`^\\d{4,}-[a-z0-9-]*$`); its sequence number equals the layer's
counter, is strictly greater than that of every existing unit, and the new
identifier collides with none of them; the counter invariant is maintained by
creation and by closing (the deleting operation), so sequence numbers are
never reused even after deletion. -/
theorem createCase_id_spec (st : Store) (input : CreateCaseInput) (now : Str)
    (_htitle : input.title ≠ [])
    (hinv : ∀ e ∈ st.cases, parseLead e.caseData.id < st.nextCaseId) :
    matchesAmendedCaseId (createCase st input now).2.id = true ∧
    parseLead (createCase st input now).2.id = st.nextCaseId ∧
    (∀ e ∈ st.cases, e.caseData.id ≠ (createCase st input now).2.id ∧
      parseLead e.caseData.id < parseLead (createCase st input now).2.id) ∧
    (∀ e ∈ (createCase st input now).1.cases,
      parseLead e.caseData.id < (createCase st input now).1.nextCaseId) ∧
    (∀ (cid : Str) (outcome : CloseOutcome) (now2 : Str) (st2 : Store)
      (c : Case) (b : Bool),
      closeCase (createCase st input now).1 cid outcome now2 = .ok (st2, c, b) →
      st2.nextCaseId = (createCase st input now).1.nextCaseId ∧
      ∀ e ∈ st2.cases, parseLead e.caseData.id < st2.nextCaseId) := by
  have hplead : parseLead (createCase st input now).2.id = st.nextCaseId :=
    parseLead_caseId st.nextCaseId (slugify input.title)
  have hnewmem : ∀ e ∈ (createCase st input now).1.cases,
      parseLead e.caseData.id < (createCase st input now).1.nextCaseId := by
    intro e he
    have hc : (createCase st input now).1.cases =
        st.cases ++ [{ caseData := (createCase st input now).2, pressures := [] }] := rfl
    rw [hc] at he
    rcases List.mem_append.mp he with h1 | h1
    · have := hinv e h1
      have hn : (createCase st input now).1.nextCaseId = st.nextCaseId + 1 := rfl
      omega
    · have he2 : e = { caseData := (createCase st input now).2, pressures := [] } := by
        simpa using h1
      rw [he2]
      have hn : (createCase st input now).1.nextCaseId = st.nextCaseId + 1 := rfl
      rw [hn]
      show parseLead (createCase st input now).2.id < st.nextCaseId + 1
      rw [hplead]
      omega
  refine ⟨matchesAmended_mkCaseId _ _, hplead, ?_, hnewmem, ?_⟩
  · intro e he
    have hlt := hinv e he
    constructor
    · intro heq
      rw [heq, hplead] at hlt
      omega
    · rw [hplead]
      exact hinv e he
  · intro cid outcome now2 st2 c b hcl
    obtain ⟨hnext, hids⟩ := closeCase_cases_ids _ _ _ _ _ _ _ hcl
    refine ⟨hnext, fun e he => ?_⟩
    obtain ⟨e0, he0, heq⟩ := hids e he
    rw [heq, hnext]
    exact hnewmem e0 he0

/-- C2 counterexample: with the counter at 10000 and the non-empty title "!",
the assigned identifier is "10000-", which fails the claim's pattern
`^\\d{4}-[a-z0-9-]+$` both in the four-digit field and in the non-empty slug. -/
theorem createCase_id_claim_counterexample :
    (createCase stC2 (titleOnly "!") (txt "t0")).2.id = txt "10000-" ∧
    matchesClaimCaseId ((createCase stC2 (titleOnly "!") (txt "t0")).2.id) = false ∧
    txt "!" ≠ [] := by
  decide

/-- C2 witness: creating "Add tile caching" in a fresh layer yields an
identifier matching the amended pattern with sequence number 1. -/
theorem createCase_id_spec_witness :
    matchesAmendedCaseId
      (createCase (storeW [] none) (titleOnly "Add tile caching") (txt "t0")).2.id = true ∧
    parseLead
      (createCase (storeW [] none) (titleOnly "Add tile caching") (txt "t0")).2.id = 1 := by
  have h := createCase_id_spec (storeW [] none) (titleOnly "Add tile caching")
    (txt "t0") (by decide) (by decide)
  exact ⟨h.1, h.2.1⟩

/-! ## C3: merged foundation listing -/

theorem annotateF_title (lp gp : Str) (f : Foundation) :
    (annotateF lp gp f).title = f.title := rfl

theorem firstByTitleAux_append (l1 : List FoundationWithSource) :
    ∀ (seen : List Str) (l2 : List FoundationWithSource),
    firstByTitleAux seen (l1 ++ l2) =
      firstByTitleAux seen l1 ++ firstByTitleAux (seenAfter seen l1) l2 := by
  induction l1 with
  | nil => intro seen l2; rfl
  | cons f rest ih =>
      intro seen l2
      rw [List.cons_append, firstByTitleAux, firstByTitleAux, seenAfter]
      by_cases h : seen.contains f.title = true
      · rw [if_pos h, if_pos h, if_pos h, ih]
      · rw [if_neg h, if_neg h, if_neg h, List.cons_append, ih]

theorem mergeLayer_spec (lp gp : Str) (fs : List Foundation) :
    ∀ (seen : List Str) (merged : List FoundationWithSource),
    mergeLayer lp gp fs seen merged =
      (seenAfter seen (fs.map (annotateF lp gp)),
        merged ++ firstByTitleAux seen (fs.map (annotateF lp gp))) := by
  induction fs with
  | nil => intro seen merged; simp [mergeLayer, seenAfter, firstByTitleAux]
  | cons f rest ih =>
      intro seen merged
      rw [List.map_cons, mergeLayer, seenAfter, firstByTitleAux, annotateF_title]
      by_cases h : seen.contains f.title = true
      · rw [if_pos h, if_pos h, if_pos h, ih]
      · rw [if_neg h, if_neg h, if_neg h, ih]
        simp

theorem mergeLayers_spec (gp : Str) (filters : Option GetFilters) :
    ∀ (layers : List Store) (seen : List Str) (merged : List FoundationWithSource),
    mergeLayers gp filters layers seen merged =
      merged ++ firstByTitleAux seen (annotatedStream layers gp filters) := by
  intro layers
  induction layers with
  | nil => intro seen merged; simp [mergeLayers, annotatedStream, firstByTitleAux]
  | cons layer rest ih =>
      intro seen merged
      rw [mergeLayers, mergeLayer_spec, ih]
      have hstream : annotatedStream (layer :: rest) gp filters =
          (layerGetFoundations layer filters).map (annotateF layer.basePath gp) ++
            annotatedStream rest gp filters := by
        simp [annotatedStream]
      rw [hstream, firstByTitleAux_append, List.append_assoc]

theorem firstByTitleAux_subset :
    ∀ (l : List FoundationWithSource) (seen : List Str) (f : FoundationWithSource),
    f ∈ firstByTitleAux seen l → f ∈ l ∧ seen.contains f.title = false := by
  intro l
  induction l with
  | nil => intro seen f hf; simp [firstByTitleAux] at hf
  | cons g rest ih =>
      intro seen f hf
      rw [firstByTitleAux] at hf
      by_cases h : seen.contains g.title = true
      · rw [if_pos h] at hf
        obtain ⟨h1, h2⟩ := ih seen f hf
        exact ⟨List.mem_cons_of_mem _ h1, h2⟩
      · rw [if_neg h] at hf
        rcases List.mem_cons.mp hf with rfl | h1
        · refine ⟨List.mem_cons_self _ _, ?_⟩
          exact Bool.eq_false_iff.mpr h
        · obtain ⟨h2, h3⟩ := ih _ f h1
          refine ⟨List.mem_cons_of_mem _ h2, ?_⟩
          simp only [List.contains_cons, Bool.or_eq_false_iff] at h3
          exact h3.2

theorem firstByTitleAux_exists :
    ∀ (l : List FoundationWithSource) (seen : List Str) (t : Str),
    seen.contains t = false → (∃ f ∈ l, f.title = t) →
    ∃ g ∈ firstByTitleAux seen l, g.title = t := by
  intro l
  induction l with
  | nil => intro seen t _ h; simp at h
  | cons f rest ih =>
      intro seen t hseen hex
      rw [firstByTitleAux]
      by_cases h : seen.contains f.title = true
      · rw [if_pos h]
        obtain ⟨f0, hf0, ht0⟩ := hex
        rcases List.mem_cons.mp hf0 with rfl | h1
        · rw [ht0] at h
          rw [h] at hseen
          exact Bool.noConfusion hseen
        · exact ih seen t hseen ⟨f0, h1, ht0⟩
      · rw [if_neg h]
        by_cases hft : f.title = t
        · exact ⟨f, List.mem_cons_self _ _, hft⟩
        · obtain ⟨f0, hf0, ht0⟩ := hex
          rcases List.mem_cons.mp hf0 with rfl | h1
          · exact absurd ht0 hft
          · have hseen2 : (f.title :: seen).contains t = false := by
              simp only [List.contains_cons, Bool.or_eq_false_iff]
              refine ⟨?_, hseen⟩
              simp only [beq_eq_false_iff_ne, ne_eq]
              exact fun hc => hft hc.symm
            obtain ⟨g, hg, hgt⟩ := ih _ t hseen2 ⟨f0, h1, ht0⟩
            exact ⟨g, List.mem_cons_of_mem _ hg, hgt⟩

theorem firstByTitleAux_countP_zero :
    ∀ (l : List FoundationWithSource) (seen : List Str) (t : Str),
    seen.contains t = true →
    List.countP (fun g => g.title == t) (firstByTitleAux seen l) = 0 := by
  intro l
  induction l with
  | nil => intro seen t _; rfl
  | cons f rest ih =>
      intro seen t hseen
      rw [firstByTitleAux]
      by_cases h : seen.contains f.title = true
      · rw [if_pos h]
        exact ih seen t hseen
      · rw [if_neg h]
        have hft : (f.title == t) = false := by
          rw [beq_eq_false_iff_ne]
          intro hc
          rw [hc] at h
          exact h hseen
        rw [List.countP_cons, hft]
        simp only [Bool.false_eq_true, if_false, Nat.add_zero]
        apply ih
        simp only [List.contains_cons, Bool.or_eq_true]
        exact Or.inr hseen

theorem firstByTitleAux_countP_le_one :
    ∀ (l : List FoundationWithSource) (seen : List Str) (t : Str),
    List.countP (fun g => g.title == t) (firstByTitleAux seen l) ≤ 1 := by
  intro l
  induction l with
  | nil => intro seen t; simp [firstByTitleAux]
  | cons f rest ih =>
      intro seen t
      rw [firstByTitleAux]
      by_cases h : seen.contains f.title = true
      · rw [if_pos h]
        exact ih seen t
      · rw [if_neg h]
        rw [List.countP_cons]
        by_cases hft : f.title = t
        · have h0 : List.countP (fun g => g.title == t)
              (firstByTitleAux (f.title :: seen) rest) = 0 := by
            apply firstByTitleAux_countP_zero
            simp [List.contains_cons, hft]
          rw [h0]
          split <;> omega
        · have hft2 : (f.title == t) = false := beq_eq_false_iff_ne.mpr hft
          rw [hft2]
          simp only [Bool.false_eq_true, if_false, Nat.add_zero]
          exact ih _ t

theorem firstByTitleAux_first_of_mem (l1 : List FoundationWithSource) :
    ∀ (l2 : List FoundationWithSource) (seen : List Str) (t : Str),
    seen.contains t = false → (∃ f ∈ l1, f.title = t) →
    ∀ g ∈ firstByTitleAux seen (l1 ++ l2), g.title = t → g ∈ l1 := by
  induction l1 with
  | nil => intro l2 seen t _ hex; simp at hex
  | cons f rest ih =>
      intro l2 seen t hseen hex g hg hgt
      rw [List.cons_append, firstByTitleAux] at hg
      by_cases h : seen.contains f.title = true
      · rw [if_pos h] at hg
        have hft : f.title ≠ t := by
          intro hc
          rw [hc] at h
          rw [h] at hseen
          exact Bool.noConfusion hseen
        obtain ⟨f0, hf0, ht0⟩ := hex
        rcases List.mem_cons.mp hf0 with rfl | h1
        · exact absurd ht0 hft
        · exact List.mem_cons_of_mem _ (ih l2 seen t hseen ⟨f0, h1, ht0⟩ g hg hgt)
      · rw [if_neg h] at hg
        rcases List.mem_cons.mp hg with rfl | h1
        · exact List.mem_cons_self _ _
        · by_cases hft : f.title = t
          · exfalso
            have h0 : List.countP (fun x => x.title == t)
                (firstByTitleAux (f.title :: seen) (rest ++ l2)) = 0 := by
              apply firstByTitleAux_countP_zero
              simp [List.contains_cons, hft]
            have hpos : 0 < List.countP (fun x => x.title == t)
                (firstByTitleAux (f.title :: seen) (rest ++ l2)) := by
              rw [List.countP_pos_iff]
              exact ⟨g, h1, by simp [hgt]⟩
            omega
          · obtain ⟨f0, hf0, ht0⟩ := hex
            rcases List.mem_cons.mp hf0 with rfl | h2
            · exact absurd ht0 hft
            · have hseen2 : (f.title :: seen).contains t = false := by
                simp only [List.contains_cons, Bool.or_eq_false_iff]
                refine ⟨?_, hseen⟩
                simp only [beq_eq_false_iff_ne, ne_eq]
                exact fun hc => hft hc.symm
              exact List.mem_cons_of_mem _
                (ih l2 _ t hseen2 ⟨f0, h2, ht0⟩ g h1 hgt)

/-- C3: the merged compressed-learning listing iterates layers nearest-first
and keeps, for each case-sensitive title, exactly its first occurrence,
annotated with the source layer path and with GLOBAL scope exactly for the
user-wide path; in particular, for a project and a global record sharing a
title, only the project one appears, annotated as PROJECT scope, and that
title occurs at most once in the output. -/
theorem hGetFoundations_merge :
    (∀ (layers : List Store) (gp : Str) (filters : Option GetFilters),
      hGetFoundations layers gp filters =
        firstByTitle (annotatedStream layers gp filters)) ∧
    (∀ (proj glob : Store) (gp : Str) (filters : Option GetFilters)
      (pf gf : Foundation),
      proj.basePath ≠ gp → glob.basePath = gp →
      pf ∈ layerGetFoundations proj filters →
      gf ∈ layerGetFoundations glob filters → gf.title = pf.title →
      (∃ fws ∈ hGetFoundations [proj, glob] gp filters,
        fws.title = pf.title ∧ fws.source_layer = proj.basePath ∧
          fws.source_scope = Scope.PROJECT) ∧
      (∀ fws ∈ hGetFoundations [proj, glob] gp filters, fws.title = pf.title →
        fws.source_layer = proj.basePath ∧ fws.source_scope = Scope.PROJECT) ∧
      List.countP (fun fws => fws.title == pf.title)
        (hGetFoundations [proj, glob] gp filters) ≤ 1) := by
  have hmain : ∀ (layers : List Store) (gp : Str) (filters : Option GetFilters),
      hGetFoundations layers gp filters =
        firstByTitle (annotatedStream layers gp filters) := by
    intro layers gp filters
    unfold hGetFoundations firstByTitle
    simpa using mergeLayers_spec gp filters layers [] []
  refine ⟨hmain, ?_⟩
  intro proj glob gp filters pf gf hp hg hpf hgf hteq
  rw [hmain]
  have hstream : annotatedStream [proj, glob] gp filters =
      (layerGetFoundations proj filters).map (annotateF proj.basePath gp) ++
        (layerGetFoundations glob filters).map (annotateF glob.basePath gp) := by
    simp [annotatedStream]
  rw [hstream]
  have hmem1 : annotateF proj.basePath gp pf ∈
      (layerGetFoundations proj filters).map (annotateF proj.basePath gp) :=
    List.mem_map_of_mem _ hpf
  have hex : ∃ f ∈ (layerGetFoundations proj filters).map (annotateF proj.basePath gp),
      f.title = pf.title := ⟨annotateF proj.basePath gp pf, hmem1, rfl⟩
  have hall : ∀ fws ∈ firstByTitleAux []
      ((layerGetFoundations proj filters).map (annotateF proj.basePath gp) ++
        (layerGetFoundations glob filters).map (annotateF glob.basePath gp)),
      fws.title = pf.title →
      fws.source_layer = proj.basePath ∧ fws.source_scope = Scope.PROJECT := by
    intro fws hmem htitle
    have hfirst := firstByTitleAux_first_of_mem _ _ [] pf.title rfl hex fws hmem htitle
    obtain ⟨f0, _, rfl⟩ := List.mem_map.mp hfirst
    have hbeq : (proj.basePath == gp) = false := beq_eq_false_iff_ne.mpr hp
    unfold annotateF
    refine ⟨rfl, ?_⟩
    simp [hbeq]
  refine ⟨?_, hall, firstByTitleAux_countP_le_one _ _ _⟩
  obtain ⟨g, hgm, hgt⟩ :=
    firstByTitleAux_exists _ [] pf.title rfl
      ⟨annotateF proj.basePath gp pf, List.mem_append_left _ hmem1, rfl⟩
  obtain ⟨h1, h2⟩ := hall g hgm hgt
  exact ⟨g, hgm, hgt, h1, h2⟩

/-- C3 witness: with a project record and a global record both titled
"Use X", the merged listing keeps the title at most once and the project
annotation carries the project path and PROJECT scope. -/
theorem hGetFoundations_merge_witness :
    List.countP (fun fws => fws.title == fwP.title)
      (hGetFoundations [projW3, globW3] (txt "/g/.decision-os") none) ≤ 1 ∧
    (annotateF (txt "/p/.decision-os") (txt "/g/.decision-os") fwP).source_layer =
      txt "/p/.decision-os" ∧
    (annotateF (txt "/p/.decision-os") (txt "/g/.decision-os") fwP).source_scope =
      Scope.PROJECT := by
  have h := hGetFoundations_merge.2 projW3 globW3 (txt "/g/.decision-os") none fwP fwG
    (by decide) (by decide) (by decide) (by decide) (by decide)
  refine ⟨h.2.2, ?_, ?_⟩
  · exact (h.2.1 (annotateF (txt "/p/.decision-os") (txt "/g/.decision-os") fwP)
      (by decide) (by decide)).1
  · exact (h.2.1 (annotateF (txt "/p/.decision-os") (txt "/g/.decision-os") fwP)
      (by decide) (by decide)).2

/-! ## C5: relevance ranking -/

theorem insertDesc_perm (x : FoundationWithSource × Nat)
    (l : List (FoundationWithSource × Nat)) :
    List.Perm (insertDesc x l) (x :: l) := by
  induction l with
  | nil => simp [insertDesc]
  | cons y ys ih =>
      rw [insertDesc]
      by_cases h : y.2 ≤ x.2
      · rw [if_pos h]
      · rw [if_neg h]
        exact List.Perm.trans (List.Perm.cons y ih) (List.Perm.swap x y ys)

theorem sortDesc_perm (l : List (FoundationWithSource × Nat)) :
    List.Perm (sortDesc l) l := by
  induction l with
  | nil => simp [sortDesc]
  | cons x xs ih =>
      rw [sortDesc]
      exact List.Perm.trans (insertDesc_perm x (sortDesc xs)) (List.Perm.cons x ih)

theorem insertDesc_pairwise (x : FoundationWithSource × Nat)
    (l : List (FoundationWithSource × Nat))
    (h : List.Pairwise (fun a b => b.2 ≤ a.2) l) :
    List.Pairwise (fun a b => b.2 ≤ a.2) (insertDesc x l) := by
  induction l with
  | nil => simp [insertDesc]
  | cons y ys ih =>
      rw [insertDesc]
      obtain ⟨hy, hys⟩ := List.pairwise_cons.mp h
      by_cases hc : y.2 ≤ x.2
      · rw [if_pos hc]
        refine List.pairwise_cons.mpr ⟨?_, h⟩
        intro b hb
        rcases List.mem_cons.mp hb with rfl | hb1
        · exact hc
        · exact le_trans (hy b hb1) hc
      · rw [if_neg hc]
        refine List.pairwise_cons.mpr ⟨?_, ih hys⟩
        intro b hb
        rcases mem_insertDesc hb with rfl | hb1
        · exact le_of_not_le hc
        · exact hy b hb1

theorem sortDesc_pairwise (l : List (FoundationWithSource × Nat)) :
    List.Pairwise (fun a b => b.2 ≤ a.2) (sortDesc l) := by
  induction l with
  | nil => simp [sortDesc]
  | cons x xs ih => exact insertDesc_pairwise x (sortDesc xs) ih

theorem insertDesc_filter (x : FoundationWithSource × Nat)
    (l : List (FoundationWithSource × Nat)) (k : Nat) :
    (insertDesc x l).filter (fun p => p.2 == k) =
      if (x.2 == k) = true then x :: l.filter (fun p => p.2 == k)
      else l.filter (fun p => p.2 == k) := by
  induction l with
  | nil =>
      rw [insertDesc]
      by_cases h : (x.2 == k) = true
      · rw [if_pos h]
        simp [List.filter, h]
      · rw [if_neg h]
        have hf : (x.2 == k) = false := Bool.eq_false_iff.mpr h
        simp [List.filter, hf]
  | cons y ys ih =>
      rw [insertDesc]
      by_cases hc : y.2 ≤ x.2
      · rw [if_pos hc]
        by_cases hx : (x.2 == k) = true
        · rw [if_pos hx, List.filter_cons_of_pos (by simpa using hx)]
        · rw [if_neg hx, List.filter_cons_of_neg (by simpa using hx)]
      · rw [if_neg hc]
        by_cases hx : (x.2 == k) = true
        · rw [if_pos hx]
          have hyk : (y.2 == k) = false := by
            rw [beq_eq_false_iff_ne]
            intro hy
            rw [beq_iff_eq] at hx
            omega
          rw [List.filter_cons_of_neg (by simp [hyk]), ih, if_pos hx,
            List.filter_cons_of_neg (by simp [hyk])]
        · rw [if_neg hx]
          rw [List.filter_cons, ih, if_neg hx, List.filter_cons]
  
theorem sortDesc_filter (l : List (FoundationWithSource × Nat)) (k : Nat) :
    (sortDesc l).filter (fun p => p.2 == k) = l.filter (fun p => p.2 == k) := by
  induction l with
  | nil => rfl
  | cons x xs ih =>
      rw [sortDesc, insertDesc_filter, List.filter_cons]
      by_cases hx : (x.2 == k) = true
      · rw [if_pos hx, if_pos hx, ih]
      · rw [if_neg hx, if_neg hx, ih]

theorem sortDesc_snd_inv (tags : List Str) (fs : List FoundationWithSource)
    (p : FoundationWithSource × Nat)
    (hp : p ∈ sortDesc (fs.map (fun f => (f, overlapScore tags f)))) :
    p.2 = overlapScore tags p.1 := by
  have h1 := mem_sortDesc hp
  obtain ⟨f, _, rfl⟩ := List.mem_map.mp h1
  rfl

theorem rank_eq_of_tags (fs : List FoundationWithSource) (c : Case)
    (hne : caseTags c ≠ []) :
    rankFoundationsByRelevance fs (some c) =
      (sortDesc (fs.map (fun f => (f, overlapScore (caseTags c) f)))).map rankAnnot := by
  unfold rankFoundationsByRelevance
  dsimp only
  rw [if_neg (fun hc => hne (List.isEmpty_iff.mp hc))]
  rfl

/-- C5: with no active case, or an active case with an empty tag set, the
foundations pass through unordered and unannotated; otherwise the output is
the stable descending sort by tag-overlap score — a permutation of the
candidates whose scores are non-increasing, in which a zero-score entry is
never followed by a positive one, whose per-score subsequences preserve the
input order, and in which every entry is annotated directly_relevant exactly
when its score is positive. -/
theorem rankFoundations_spec :
    (∀ (fs : List FoundationWithSource),
      rankFoundationsByRelevance fs none =
        fs.map (fun f => { fws := f, relevance := none })) ∧
    (∀ (fs : List FoundationWithSource) (c : Case), caseTags c = [] →
      rankFoundationsByRelevance fs (some c) =
        fs.map (fun f => { fws := f, relevance := none })) ∧
    (∀ (fs : List FoundationWithSource) (c : Case), caseTags c ≠ [] →
      List.Perm ((rankFoundationsByRelevance fs (some c)).map (fun r => r.fws)) fs ∧
      List.Pairwise (fun a b =>
          overlapScore (caseTags c) b.fws ≤ overlapScore (caseTags c) a.fws)
        (rankFoundationsByRelevance fs (some c)) ∧
      List.Pairwise (fun a b =>
          overlapScore (caseTags c) a.fws = 0 → overlapScore (caseTags c) b.fws = 0)
        (rankFoundationsByRelevance fs (some c)) ∧
      (∀ k : Nat, ((rankFoundationsByRelevance fs (some c)).filter
          (fun r => overlapScore (caseTags c) r.fws == k)).map (fun r => r.fws) =
        fs.filter (fun f => overlapScore (caseTags c) f == k)) ∧
      (∀ r ∈ rankFoundationsByRelevance fs (some c),
        r.relevance = some (if 0 < overlapScore (caseTags c) r.fws
          then Relevance.directly_relevant else Relevance.general))) := by
  refine ⟨fun fs => rfl, ?_, ?_⟩
  · intro fs c he
    unfold rankFoundationsByRelevance
    dsimp only
    rw [if_pos (by rw [he]; rfl)]
  · intro fs c hne
    rw [rank_eq_of_tags fs c hne]
    refine ⟨?_, ?_, ?_, ?_, ?_⟩
    · rw [List.map_map]
      have h1 := (sortDesc_perm (fs.map (fun f => (f, overlapScore (caseTags c) f)))).map
        (fun p : FoundationWithSource × Nat => p.1)
      have h2 : (fs.map (fun f => (f, overlapScore (caseTags c) f))).map
          (fun p : FoundationWithSource × Nat => p.1) = fs := by
        rw [List.map_map]
        exact List.map_id fs
      rw [h2] at h1
      exact h1
    · rw [List.pairwise_map]
      apply List.Pairwise.imp_of_mem ?_
        (sortDesc_pairwise (fs.map (fun f => (f, overlapScore (caseTags c) f))))
      intro a b ha hb hle
      show overlapScore (caseTags c) (rankAnnot b).fws ≤
        overlapScore (caseTags c) (rankAnnot a).fws
      have hfa : (rankAnnot a).fws = a.1 := rfl
      have hfb : (rankAnnot b).fws = b.1 := rfl
      rw [hfa, hfb, ← sortDesc_snd_inv _ _ _ ha, ← sortDesc_snd_inv _ _ _ hb]
      exact hle
    · rw [List.pairwise_map]
      apply List.Pairwise.imp_of_mem ?_
        (sortDesc_pairwise (fs.map (fun f => (f, overlapScore (caseTags c) f))))
      intro a b ha hb hle
      show overlapScore (caseTags c) (rankAnnot a).fws = 0 →
        overlapScore (caseTags c) (rankAnnot b).fws = 0
      have hfa : (rankAnnot a).fws = a.1 := rfl
      have hfb : (rankAnnot b).fws = b.1 := rfl
      rw [hfa, hfb, ← sortDesc_snd_inv _ _ _ ha, ← sortDesc_snd_inv _ _ _ hb]
      omega
    · intro k
      rw [List.filter_map, List.map_map]
      have hcong : ∀ p ∈ sortDesc (fs.map (fun f => (f, overlapScore (caseTags c) f))),
          ((fun r : RankedF => overlapScore (caseTags c) r.fws == k) ∘ rankAnnot) p =
          (fun p : FoundationWithSource × Nat => p.2 == k) p := by
        intro p hp
        show (overlapScore (caseTags c) (rankAnnot p).fws == k) = (p.2 == k)
        have hfp : (rankAnnot p).fws = p.1 := rfl
        rw [hfp, sortDesc_snd_inv _ _ _ hp]
      rw [List.filter_congr hcong, sortDesc_filter, List.filter_map]
      have hcong2 : ∀ f ∈ fs,
          ((fun p : FoundationWithSource × Nat => p.2 == k) ∘
            (fun f => (f, overlapScore (caseTags c) f))) f =
          (fun f => overlapScore (caseTags c) f == k) f := fun f _ => rfl
      rw [List.filter_congr hcong2, List.map_map]
      have hid : ((fun r : RankedF => r.fws) ∘ rankAnnot) ∘
          (fun f : FoundationWithSource => (f, overlapScore (caseTags c) f)) = id := rfl
      rw [hid, List.map_id]
    · intro r hr
      obtain ⟨p, hp, rfl⟩ := List.mem_map.mp hr
      show (rankAnnot p).relevance = some (if 0 < overlapScore (caseTags c) (rankAnnot p).fws
        then Relevance.directly_relevant else Relevance.general)
      have hfp : (rankAnnot p).fws = p.1 := rfl
      rw [hfp, ← sortDesc_snd_inv _ _ _ hp]
      rfl

/-- C5 witness: with an active case touching DATA_MODEL/BACKEND and one
matching and one non-matching foundation, the ranked output is a permutation
with non-increasing scores. -/
theorem rankFoundations_spec_witness :
    List.Perm ((rankFoundationsByRelevance [fwUI, fwDM] (some caseW5)).map
      (fun r => r.fws)) [fwUI, fwDM] ∧
    List.Pairwise (fun a b =>
        overlapScore (caseTags caseW5) b.fws ≤ overlapScore (caseTags caseW5) a.fws)
      (rankFoundationsByRelevance [fwUI, fwDM] (some caseW5)) := by
  have h := rankFoundations_spec.2.2 [fwUI, fwDM] caseW5 (by decide)
  exact ⟨h.1, h.2.1⟩

/-! ## C4: conflict detection -/

theorem conflictsFor_project (pf : Foundation) (G : List Foundation) (c : Conflict)
    (hc : c ∈ conflictsFor pf G) : c.project_foundation = pf := by
  unfold conflictsFor at hc
  cases hfind : G.find? (fun gf => lowerStr gf.title == lowerStr pf.title) with
  | some gf =>
      rw [hfind] at hc
      have : c = mkShadow pf gf := by simpa using hc
      rw [this]
      rfl
  | none =>
      rw [hfind] at hc
      obtain ⟨gf, _, heq⟩ := List.mem_filterMap.mp hc
      by_cases h1 : (0 < (overlapTags pf gf).length && !(pf.title == gf.title)) = true
      · rw [if_pos h1] at heq
        by_cases h2 : contradictoryB pf gf = true
        · rw [if_pos h2] at heq
          injection heq with heq
          rw [← heq]
          rfl
        · rw [if_neg h2] at heq
          exact Option.noConfusion heq
      · rw [if_neg h1] at heq
        exact Option.noConfusion heq

theorem contradictoryB_iff (pf gf : Foundation) :
    contradictoryB pf gf = true ↔
      ((hasSub (txt "always") (lowerStr pf.default_behavior) = true ∧
        hasSub (txt "never") (lowerStr gf.default_behavior) = true) ∨
       (hasSub (txt "never") (lowerStr pf.default_behavior) = true ∧
        hasSub (txt "always") (lowerStr gf.default_behavior) = true) ∨
       (hasSub (txt "prefer") (lowerStr pf.default_behavior) = true ∧
        hasSub (txt "avoid") (lowerStr gf.default_behavior) = true)) := by
  unfold contradictoryB
  simp [Bool.or_eq_true, Bool.and_eq_true, or_assoc]

/-- C4 (amended): conflict detection is empty without a user-wide layer; a
project record with at least one case-insensitively title-matching global
record yields exactly one shadow conflict — paired with the first such match
— and undergoes no tag-based inspection; a project record with no title
match yields one contradiction conflict per global record sharing a context
tag whose behaviour text contradicts it lexically — always/never in either
direction, or "prefer" in the project record with "avoid" in the global one
(one direction only). -/
theorem detectConflicts_spec :
    (∀ (h : HStore), hGlobal h = none → detectConflicts h = []) ∧
    (∀ (h : HStore) (g : Store), hGlobal h = some g →
      ∀ pf ∈ layerGetFoundations h.project none,
        (∀ gf0, (layerGetFoundations g none).find?
            (fun gf => lowerStr gf.title == lowerStr pf.title) = some gf0 →
          mkShadow pf gf0 ∈ detectConflicts h ∧
          (∀ c ∈ detectConflicts h, c.project_foundation = pf → c = mkShadow pf gf0)) ∧
        ((layerGetFoundations g none).find?
            (fun gf => lowerStr gf.title == lowerStr pf.title) = none →
          ∀ gf, mkContra pf gf ∈ detectConflicts h ↔
            gf ∈ layerGetFoundations g none ∧ overlapTags pf gf ≠ [] ∧
            pf.title ≠ gf.title ∧
            ((hasSub (txt "always") (lowerStr pf.default_behavior) = true ∧
              hasSub (txt "never") (lowerStr gf.default_behavior) = true) ∨
             (hasSub (txt "never") (lowerStr pf.default_behavior) = true ∧
              hasSub (txt "always") (lowerStr gf.default_behavior) = true) ∨
             (hasSub (txt "prefer") (lowerStr pf.default_behavior) = true ∧
              hasSub (txt "avoid") (lowerStr gf.default_behavior) = true)))) := by
  constructor
  · intro h hg
    unfold detectConflicts
    rw [hg]
  · intro h g hg pf hpf
    have hdet : detectConflicts h = (layerGetFoundations h.project none).flatMap
        (fun pf => conflictsFor pf (layerGetFoundations g none)) := by
      unfold detectConflicts
      rw [hg]
    constructor
    · intro gf0 hfind
      have hcf : conflictsFor pf (layerGetFoundations g none) = [mkShadow pf gf0] := by
        unfold conflictsFor
        rw [hfind]
      constructor
      · rw [hdet]
        exact List.mem_flatMap.mpr ⟨pf, hpf, by rw [hcf]; exact List.mem_singleton.mpr rfl⟩
      · intro c hc hcp
        rw [hdet] at hc
        obtain ⟨pf2, _, hc2⟩ := List.mem_flatMap.mp hc
        have hpf2 : pf2 = pf := by
          rw [← hcp]
          exact (conflictsFor_project pf2 _ c hc2).symm
        rw [hpf2, hcf] at hc2
        simpa using hc2
    · intro hfind gf
      have hcf : conflictsFor pf (layerGetFoundations g none) =
          (layerGetFoundations g none).filterMap (fun gf =>
            if 0 < (overlapTags pf gf).length && !(pf.title == gf.title) then
              if contradictoryB pf gf then some (mkContra pf gf) else none
            else none) := by
        unfold conflictsFor
        rw [hfind]
      constructor
      · intro hmem
        rw [hdet] at hmem
        obtain ⟨pf2, _, hc2⟩ := List.mem_flatMap.mp hmem
        have hpf2 : pf2 = pf := by
          have := conflictsFor_project pf2 _ _ hc2
          rw [show (mkContra pf gf).project_foundation = pf from rfl] at this
          exact this.symm
        rw [hpf2, hcf] at hc2
        obtain ⟨gf2, hgf2, heq⟩ := List.mem_filterMap.mp hc2
        by_cases h1 : (0 < (overlapTags pf gf2).length && !(pf.title == gf2.title)) = true
        · rw [if_pos h1] at heq
          by_cases h2 : contradictoryB pf gf2 = true
          · rw [if_pos h2] at heq
            injection heq with heq
            have hgfe : gf2 = gf := by
              have := congrArg Conflict.global_foundation heq
              simpa using this
            rw [hgfe] at hgf2 h1 h2
            obtain ⟨hlen, hne⟩ := Bool.and_eq_true_iff.mp h1
            refine ⟨hgf2, ?_, ?_, (contradictoryB_iff pf gf).mp h2⟩
            · intro hnil
              rw [hnil] at hlen
              simp at hlen
            · intro hteq
              rw [Bool.not_eq_eq_eq_not] at hne
              simp only [Bool.not_true] at hne
              rw [beq_eq_false_iff_ne] at hne
              exact hne hteq
          · rw [if_neg h2] at heq
            exact Option.noConfusion heq
        · rw [if_neg h1] at heq
          exact Option.noConfusion heq
      · rintro ⟨hgmem, hlen, hne, hcontra⟩
        rw [hdet]
        refine List.mem_flatMap.mpr ⟨pf, hpf, ?_⟩
        rw [hcf]
        refine List.mem_filterMap.mpr ⟨gf, hgmem, ?_⟩
        have h1 : (0 < (overlapTags pf gf).length && !(pf.title == gf.title)) = true := by
          rw [Bool.and_eq_true_iff]
          constructor
          · simp only [decide_eq_true_eq]
            cases hov : overlapTags pf gf with
            | nil => exact absurd hov hlen
            | cons a l => simp
          · simp only [Bool.not_eq_eq_eq_not, Bool.not_true, beq_eq_false_iff_ne]
            exact hne
        rw [if_pos h1, if_pos ((contradictoryB_iff pf gf).mpr hcontra)]

/-- C4 counterexample: on a concrete two-layer store the code reports only
the single first-match shadow conflict, while the claim's reading also
demands a conflict for the second title match, for the skipped tag pair of
the shadowed record, and for the avoid(project)/prefer(global) pair. -/
theorem detectConflicts_claim_counterexample :
    detectConflicts hC4 = [mkShadow pf1C4 gf1C4] ∧
    overlapTags pf2C4 gf4C4 ≠ [] ∧
    lowerStr pf2C4.title ≠ lowerStr gf4C4.title ∧
    hasSub (txt "avoid") (lowerStr pf2C4.default_behavior) = true ∧
    hasSub (txt "prefer") (lowerStr gf4C4.default_behavior) = true ∧
    (∀ c ∈ detectConflicts hC4,
      ¬(c.project_foundation = pf2C4 ∧ c.global_foundation = gf4C4)) ∧
    lowerStr gf2C4.title = lowerStr pf1C4.title ∧
    (∀ c ∈ detectConflicts hC4, c.global_foundation ≠ gf2C4) ∧
    overlapTags pf1C4 gf3C4 ≠ [] ∧
    hasSub (txt "always") (lowerStr pf1C4.default_behavior) = true ∧
    hasSub (txt "never") (lowerStr gf3C4.default_behavior) = true ∧
    (∀ c ∈ detectConflicts hC4, c.global_foundation ≠ gf3C4) := by
  decide

/-- C4 witness: the shadow conflict for the matching titles and the
contradiction conflict for the prefer/avoid pair are both reported. -/
theorem detectConflicts_spec_witness :
    mkShadow pf1C4 gf1C4 ∈ detectConflicts hW4 ∧
    mkContra pf3C4 gf5C4 ∈ detectConflicts hW4 := by
  have h := detectConflicts_spec.2 hW4
    { storeW [] (some [gf1C4, gf5C4]) with basePath := txt "/g/.decision-os" } rfl
  constructor
  · exact ((h pf1C4 (by decide)).1 gf1C4 (by decide)).1
  · exact ((h pf3C4 (by decide)).2 (by decide) gf5C4).mpr
      ⟨by decide, by decide, by decide,
        Or.inr (Or.inr ⟨by decide, by decide⟩)⟩

/-! ## C6: cross-validation -/

theorem updateFoundationVC_ok (st : Store) (fid : Str) (vi : List Str) (conf : Nat)
    (now : Str) (f0 : Foundation) (fs : List Foundation)
    (hfs : st.foundationsFile = some fs) (hmem : f0 ∈ fs) (hid : f0.id = fid) :
    ∃ st1 u, updateFoundationVC st fid vi conf now = .ok (st1, u) ∧
      u.validated_in = some vi ∧ u.confidence = conf ∧ u.updated_at = now := by
  unfold updateFoundationVC
  rw [hfs]
  dsimp only
  have hsome : (fs.find? (fun x => x.id == fid)).isSome := by
    rw [List.find?_isSome]
    exact ⟨f0, hmem, by simp [hid]⟩
  obtain ⟨old, hold⟩ := Option.isSome_iff_exists.mp hsome
  rw [hold]
  exact ⟨_, _, rfl, rfl, rfl, rfl⟩

theorem layerGetFoundations_none_cases (st : Store) (f0 : Foundation)
    (hf : f0 ∈ layerGetFoundations st none) :
    ∃ fs, st.foundationsFile = some fs ∧ f0 ∈ fs := by
  unfold layerGetFoundations at hf
  cases hpf : st.foundationsFile with
  | none => rw [hpf] at hf; simp at hf
  | some fs =>
      rw [hpf] at hf
      exact ⟨fs, rfl, hf⟩

theorem validatedInAfter_of_mem (f : Foundation) (project : Str)
    (h : project ∈ f.validated_in.getD []) :
    validatedInAfter f project = f.validated_in.getD [] := by
  unfold validatedInAfter
  rw [if_pos]
  show (f.validated_in.getD []).contains project = true
  simp [List.contains, List.elem_eq_mem, h]

theorem validatedInAfter_of_not_mem (f : Foundation) (project : Str)
    (h : project ∉ f.validated_in.getD []) :
    validatedInAfter f project = f.validated_in.getD [] ++ [project] := by
  unfold validatedInAfter
  rw [if_neg]
  show ¬(f.validated_in.getD []).contains project = true
  simp [List.contains, List.elem_eq_mem, h]

theorem confidenceAfter_eq (f : Foundation) (project : Str) :
    confidenceAfter f project =
      if 3 ≤ (validatedInAfter f project).length ∧ f.confidence < 3
      then f.confidence + 1 else f.confidence := by
  unfold confidenceAfter
  by_cases h : 3 ≤ (validatedInAfter f project).length ∧ f.confidence < 3
  · rw [if_pos (by simp [h.1, h.2]), if_pos h]
    omega
  · rw [if_neg ?hc, if_neg h]
    case hc =>
      intro hb
      obtain ⟨h1, h2⟩ := Bool.and_eq_true_iff.mp hb
      exact h ⟨by simpa using h1, by simpa using h2⟩

theorem confidenceAfter_le (f : Foundation) (project : Str) (h : f.confidence ≤ 3) :
    confidenceAfter f project ≤ 3 := by
  rw [confidenceAfter_eq]
  split
  · next hcond => omega
  · exact h

/-- C6 (amended): for a record found by id in the merged listing, validation
adds the current project label to validated-in only when absent, increments
confidence by exactly 1 exactly when the resulting list has length at least 3
(labels counted with multiplicity) and confidence is below 3 — never
exceeding 3 — stamps the update time, and persists to the record's source
layer: the global layer when the source scope is GLOBAL, else the project
layer. -/
theorem validateFoundation_spec (p g : Store) (gp fid now : Str)
    (f : FoundationWithSource)
    (hp : p.basePath ≠ gp) (hgp : g.basePath = gp)
    (hfind : (hGetFoundations [p, g] gp none).find? (fun x => x.id == fid) = some f)
    (hconf : f.confidence ≤ 3) :
    ∃ h' u,
      hValidateFoundation { project := p, rest := [g], globalPath := gp } fid now =
        .ok (h', u) ∧
      u.validated_in = some (validatedInAfter f.toFoundation p.configProject) ∧
      (p.configProject ∈ f.validated_in.getD [] →
        validatedInAfter f.toFoundation p.configProject = f.validated_in.getD []) ∧
      (p.configProject ∉ f.validated_in.getD [] →
        validatedInAfter f.toFoundation p.configProject =
          f.validated_in.getD [] ++ [p.configProject]) ∧
      (u.confidence =
        if 3 ≤ (validatedInAfter f.toFoundation p.configProject).length ∧
            f.confidence < 3
        then f.confidence + 1 else f.confidence) ∧
      u.confidence ≤ 3 ∧
      u.updated_at = now ∧
      (f.source_scope = Scope.GLOBAL →
        h'.project = p ∧ ∃ g', h'.rest = [g'] ∧
          updateFoundationVC g fid (validatedInAfter f.toFoundation p.configProject)
            (confidenceAfter f.toFoundation p.configProject) now = .ok (g', u)) ∧
      (f.source_scope = Scope.PROJECT →
        h'.rest = [g] ∧
          updateFoundationVC p fid (validatedInAfter f.toFoundation p.configProject)
            (confidenceAfter f.toFoundation p.configProject) now =
            .ok (h'.project, u)) := by
  have hfmem0 : f ∈ hGetFoundations [p, g] gp none := List.mem_of_find?_eq_some hfind
  have hfid : f.id = fid := by
    have h2 := List.find?_some (p := fun x : FoundationWithSource => x.id == fid) hfind
    simpa using h2
  have hmerged : hGetFoundations [p, g] gp none =
      firstByTitleAux [] (annotatedStream [p, g] gp none) := by
    unfold hGetFoundations
    simpa using mergeLayers_spec gp none [p, g] [] []
  rw [hmerged] at hfmem0
  have hstream := (firstByTitleAux_subset _ [] f hfmem0).1
  have hstr : annotatedStream [p, g] gp none =
      (layerGetFoundations p none).map (annotateF p.basePath gp) ++
        (layerGetFoundations g none).map (annotateF g.basePath gp) := by
    simp [annotatedStream]
  rw [hstr] at hstream
  rcases List.mem_append.mp hstream with hmem | hmem
  · -- project-side record
    obtain ⟨f0, hf0, rfl⟩ := List.mem_map.mp hmem
    have hscope : (annotateF p.basePath gp f0).source_scope = Scope.PROJECT := by
      unfold annotateF
      simp [beq_eq_false_iff_ne.mpr hp]
    obtain ⟨pfs, hpfs, hf0mem⟩ := layerGetFoundations_none_cases p f0 hf0
    obtain ⟨p1, u, hupd, hvi, hcf, hup⟩ :=
      updateFoundationVC_ok p fid
        (validatedInAfter f0 p.configProject) (confidenceAfter f0 p.configProject)
        now f0 pfs hpfs hf0mem hfid
    refine ⟨{ project := p1, rest := [g], globalPath := gp }, u, ?_, hvi, ?_, ?_, ?_, ?_,
      hup, ?_, ?_⟩
    · unfold hValidateFoundation
      dsimp only [hLayers]
      rw [hfind]
      dsimp only
      rw [show hGlobal { project := p, rest := [g], globalPath := gp } = some g from rfl]
      dsimp only
      rw [if_neg (show ¬((annotateF p.basePath gp f0).source_scope == Scope.GLOBAL) = true by
        rw [hscope]; decide)]
      rw [show (annotateF p.basePath gp f0).toFoundation = f0 from rfl]
      rw [hupd]
    · intro hmemv
      exact validatedInAfter_of_mem f0 p.configProject hmemv
    · intro hmemv
      exact validatedInAfter_of_not_mem f0 p.configProject hmemv
    · rw [hcf]
      exact confidenceAfter_eq f0 p.configProject
    · rw [hcf]
      exact confidenceAfter_le f0 p.configProject hconf
    · intro habs
      rw [hscope] at habs
      exact Scope.noConfusion habs
    · intro _
      exact ⟨rfl, hupd⟩
  · -- global-side record
    obtain ⟨f0, hf0, rfl⟩ := List.mem_map.mp hmem
    have hscope : (annotateF g.basePath gp f0).source_scope = Scope.GLOBAL := by
      unfold annotateF
      simp [hgp]
    obtain ⟨gfs, hgfs, hf0mem⟩ := layerGetFoundations_none_cases g f0 hf0
    obtain ⟨g1, u, hupd, hvi, hcf, hup⟩ :=
      updateFoundationVC_ok g fid
        (validatedInAfter f0 p.configProject) (confidenceAfter f0 p.configProject)
        now f0 gfs hgfs hf0mem hfid
    refine ⟨{ project := p, rest := [g1], globalPath := gp }, u, ?_, hvi, ?_, ?_, ?_, ?_,
      hup, ?_, ?_⟩
    · unfold hValidateFoundation
      dsimp only [hLayers]
      rw [hfind]
      dsimp only
      rw [show hGlobal { project := p, rest := [g], globalPath := gp } = some g from rfl]
      dsimp only
      rw [if_pos (show ((annotateF g.basePath gp f0).source_scope == Scope.GLOBAL) = true by
        rw [hscope]; decide)]
      rw [show (annotateF g.basePath gp f0).toFoundation = f0 from rfl]
      rw [hupd]
      rfl
    · intro hmemv
      exact validatedInAfter_of_mem f0 p.configProject hmemv
    · intro hmemv
      exact validatedInAfter_of_not_mem f0 p.configProject hmemv
    · rw [hcf]
      exact confidenceAfter_eq f0 p.configProject
    · rw [hcf]
      exact confidenceAfter_le f0 p.configProject hconf
    · intro _
      exact ⟨rfl, g1, rfl, hupd⟩
    · intro habs
      rw [hscope] at habs
      exact Scope.noConfusion habs

/-- C6 counterexample: with the stored validated-in list ["proj","proj","q"]
(schema-valid, duplicate label) and the current project "proj", the code
raises confidence from 1 to 2 because the list length is 3, although only 2
distinct labels have validated the record. -/
theorem validateFoundation_claim_counterexample :
    confOf (hValidateFoundation hC6 (txt "F-0001") (txt "t1")) = some 2 ∧
    viOf (hValidateFoundation hC6 (txt "F-0001") (txt "t1")) =
      some (some [txt "proj", txt "proj", txt "q"]) ∧
    (dedupFirst [txt "proj", txt "proj", txt "q"]).length = 2 := by
  decide

/-- C6 witness: validating the user-wide record GF-0001 from project "proj"
seeds its validated-in list and leaves confidence at 1. -/
theorem validateFoundation_spec_witness :
    confOf (hValidateFoundation hW6 (txt "GF-0001") (txt "t1")) = some 1 ∧
    viOf (hValidateFoundation hW6 (txt "GF-0001") (txt "t1")) =
      some (some [txt "proj"]) := by
  obtain ⟨h', u, heq, hvi, -, -, hcf, -, -, -, -⟩ :=
    validateFoundation_spec
      (storeW [] (some [foundW (txt "F-0001") (txt "P6") (txt "b") [txt "X"] 1 none]))
      { storeW [] (some [fW6g]) with basePath := txt "/g/.decision-os" }
      (txt "/g/.decision-os") (txt "GF-0001") (txt "t1")
      (annotateF (txt "/g/.decision-os") (txt "/g/.decision-os") fW6g)
      (by decide) (by decide) (by decide) (by decide)
  unfold hW6
  rw [heq]
  rw [if_neg (by decide)] at hcf
  constructor
  · show some u.confidence = some 1
    rw [hcf]
    decide
  · show some u.validated_in = some (some [txt "proj"])
    rw [hvi]
    decide

/-! ## C7: scope elevation -/

theorem foldl_mark_file (fid : Str) (l : List Str) : ∀ (s : Store),
    (l.foldl (fun s peId => markPressurePromoted s peId fid) s).foundationsFile =
      s.foundationsFile := by
  induction l with
  | nil => intro s; rfl
  | cons a t ih =>
      intro s
      rw [List.foldl_cons, ih]
      rfl

theorem promote_foundationsFile (st : Store) (input : PromoteInput) (now : Str) :
    (promoteToFoundation st input now).1.foundationsFile =
      some (st.foundationsFile.getD [] ++ [(promoteToFoundation st input now).2]) := by
  unfold promoteToFoundation
  dsimp only
  rw [foldl_mark_file]

/-- C7 (amended): elevation fails without a user-wide layer; otherwise the
project record is re-promoted into the global layer with its title, context
tags, counter-contexts, exit criteria and source pressures unchanged, the
body text gaining the elevation note when a non-empty reason is given, scope
forced to GLOBAL with a GF-prefixed id, origin-project set to the current
project — but with confidence reset to 1, validated-in reseeded to the
current project, and fresh timestamps — and the original project record is
then removed. -/
theorem elevateFoundation_spec :
    (∀ (h : HStore) (fid : Str) (reason : Option Str) (now : Str), hGlobal h = none →
      hElevateFoundation h fid reason now = .error .noGlobalLayer) ∧
    (∀ (h : HStore) (g : Store) (fid : Str) (reason : Option Str) (now : Str)
      (f : Foundation),
      hGlobal h = some g →
      (layerGetFoundations h.project none).find? (fun x => x.id == fid) = some f →
      ∃ h' gf, hElevateFoundation h fid reason now = .ok (h', gf) ∧
        gf.title = f.title ∧
        gf.default_behavior = f.default_behavior ++
          (match reason with
           | some r => if r.isEmpty then [] else elevNote h.project.configProject r
           | none => []) ∧
        gf.context_tags = f.context_tags ∧
        gf.counter_contexts = f.counter_contexts ∧
        gf.exit_criteria = f.exit_criteria ∧
        gf.source_pressures = f.source_pressures ∧
        gf.scope = Scope.GLOBAL ∧
        gf.id = txt "GF" ++ '-' :: padTo4 (natChars g.nextFoundationId) ∧
        gf.origin_project = some h.project.configProject ∧
        gf.confidence = 1 ∧
        gf.validated_in = (if h.project.configProject.isEmpty then none
          else some [h.project.configProject]) ∧
        gf.created_at = now ∧
        gf.updated_at = now ∧
        (removeFoundation h.project fid).1 = true ∧
        h'.project = (removeFoundation h.project fid).2 ∧
        (∀ x ∈ layerGetFoundations h'.project none, x.id ≠ fid) ∧
        (∃ g', h'.rest = h.rest.dropLast ++ [g'] ∧
          g'.foundationsFile = some (g.foundationsFile.getD [] ++ [gf]))) := by
  constructor
  · intro h fid reason now hg
    unfold hElevateFoundation
    rw [hg]
  · intro h g fid reason now f hg hfind
    have hfmem : f ∈ layerGetFoundations h.project none := List.mem_of_find?_eq_some hfind
    have hfid : f.id = fid := by
      have h2 := List.find?_some (p := fun x : Foundation => x.id == fid) hfind
      simpa using h2
    obtain ⟨pfs, hpfs, hfm⟩ := layerGetFoundations_none_cases h.project f hfmem
    have hany : pfs.any (fun x => x.id == fid) = true := by
      rw [List.any_eq_true]
      exact ⟨f, hfm, by simp [hfid]⟩
    have hrem : removeFoundation h.project fid =
        (true, { h.project with foundationsFile := some (pfs.filter (fun x => !(x.id == fid))) }) := by
      unfold removeFoundation
      rw [hpfs]
      dsimp only
      rw [if_pos hany]
    have hval : hElevateFoundation h fid reason now = .ok
        ({ setGlobalLayer h (promoteToFoundation g
            { title := f.title
              default_behavior := f.default_behavior ++
                (match reason with
                 | some r => if r.isEmpty then [] else elevNote h.project.configProject r
                 | none => [])
              context_tags := f.context_tags
              counter_contexts := f.counter_contexts
              source_pressures := f.source_pressures
              exit_criteria := f.exit_criteria
              scope := some Scope.GLOBAL
              origin_project := some h.project.configProject } now).1 with
          project := (removeFoundation h.project fid).2 },
        (promoteToFoundation g
            { title := f.title
              default_behavior := f.default_behavior ++
                (match reason with
                 | some r => if r.isEmpty then [] else elevNote h.project.configProject r
                 | none => [])
              context_tags := f.context_tags
              counter_contexts := f.counter_contexts
              source_pressures := f.source_pressures
              exit_criteria := f.exit_criteria
              scope := some Scope.GLOBAL
              origin_project := some h.project.configProject } now).2) := by
      unfold hElevateFoundation
      rw [hg]
      dsimp only
      rw [hfind]
    refine ⟨_, _, hval, rfl, rfl, rfl, rfl, rfl, rfl, rfl, rfl, rfl, rfl, rfl, rfl, rfl,
      ?_, ?_, ?_, ?_⟩
    · rw [hrem]
    · rfl
    · intro x hx
      rw [hrem] at hx
      dsimp only at hx
      obtain ⟨fs2, hfs2, hxm⟩ := layerGetFoundations_none_cases _ x hx
      dsimp only at hfs2
      have hfs2e : pfs.filter (fun x => !(x.id == fid)) = fs2 := by
        injection hfs2
      rw [← hfs2e] at hxm
      have := List.of_mem_filter hxm
      simpa using this
    · refine ⟨_, rfl, ?_⟩
      rw [promote_foundationsFile]

/-- C7 counterexample: elevating a confidence-3 record validated in three
projects yields a global copy with confidence reset to 1 and validated-in
reseeded to the current project. -/
theorem elevateFoundation_claim_counterexample :
    fC7.confidence = 3 ∧ fC7.validated_in = some [txt "a", txt "b", txt "c"] ∧
    confOf (hElevateFoundation hC7 (txt "F-0001") none (txt "t1")) = some 1 ∧
    viOf (hElevateFoundation hC7 (txt "F-0001") none (txt "t1")) =
      some (some [txt "proj"]) := by
  decide

/-- C7 witness: on the same store the amended description holds — the
original is removed and the copy carries confidence 1. -/
theorem elevateFoundation_spec_witness :
    (removeFoundation hC7.project (txt "F-0001")).1 = true ∧
    confOf (hElevateFoundation hC7 (txt "F-0001") none (txt "t1")) = some 1 := by
  obtain ⟨h', gf, heq, hrest⟩ := elevateFoundation_spec.2 hC7
    { storeW [] (some []) with basePath := txt "/g/.decision-os" }
    (txt "F-0001") none (txt "t1") fC7 rfl (by decide)
  constructor
  · exact hrest.2.2.2.2.2.2.2.2.2.2.2.2.2.1
  · have hcp := hrest.2.2.2.2.2.2.2.2.2.1
    rw [heq]
    show some gf.confidence = some 1
    rw [hcp]

/-! ## C9: retrospective compression candidates -/

theorem lookupG_cons_eq (t : Str) (ps : List PressureEvent)
    (gs : List (Str × List PressureEvent)) : lookupG ((t, ps) :: gs) t = ps := by
  unfold lookupG
  rw [List.find?_cons_of_pos _ (by simp)]

theorem lookupG_cons_ne (t t' : Str) (ps : List PressureEvent)
    (gs : List (Str × List PressureEvent)) (h : t ≠ t') :
    lookupG ((t', ps) :: gs) t = lookupG gs t := by
  unfold lookupG
  rw [List.find?_cons_of_neg _ (by simpa using Ne.symm h)]

theorem lookupG_addToGroups (tag : Str) (pe : PressureEvent) :
    ∀ (gs : List (Str × List PressureEvent)) (t : Str),
    lookupG (addToGroups tag pe gs) t =
      if t = tag then lookupG gs t ++ [pe] else lookupG gs t := by
  intro gs
  induction gs with
  | nil =>
      intro t
      by_cases h : t = tag
      · subst h
        rw [if_pos rfl]
        show lookupG [(t, [pe])] t = lookupG [] t ++ [pe]
        rw [lookupG_cons_eq]
        rfl
      · rw [if_neg h]
        show lookupG [(tag, [pe])] t = lookupG [] t
        rw [lookupG_cons_ne _ _ _ _ h]
  | cons hd rest ih =>
      intro t
      obtain ⟨t1, ps1⟩ := hd
      simp only [addToGroups]
      by_cases h1 : t1 = tag
      · rw [if_pos (by simp [h1])]
        by_cases h2 : t = t1
        · subst h2
          rw [h1, if_pos rfl, lookupG_cons_eq, lookupG_cons_eq]
        · rw [lookupG_cons_ne _ _ _ _ h2, lookupG_cons_ne _ _ _ _ h2]
          rw [if_neg (by rw [← h1]; exact h2)]
      · rw [if_neg (by simpa using h1)]
        by_cases h2 : t = t1
        · subst h2
          rw [lookupG_cons_eq, lookupG_cons_eq, if_neg h1]
        · rw [lookupG_cons_ne _ _ _ _ h2, lookupG_cons_ne _ _ _ _ h2]
          exact ih t

theorem lookupG_tagfold (pe : PressureEvent) :
    ∀ (tags : List Str) (gs : List (Str × List PressureEvent)) (t : Str),
    lookupG (tags.foldl (fun gs1 tg => addToGroups tg pe gs1) gs) t =
      lookupG gs t ++ ((tags.filter (fun s => s == t)).map (fun _ => pe)) := by
  intro tags
  induction tags with
  | nil => intro gs t; simp
  | cons a tl ih =>
      intro gs t
      rw [List.foldl_cons, ih, lookupG_addToGroups]
      by_cases h : t = a
      · rw [if_pos h, List.filter_cons, if_pos (by simp [h])]
        simp
      · rw [if_neg h, List.filter_cons, if_neg (by simpa using fun hh => h hh.symm)]

theorem lookupG_buildfold (t : Str) :
    ∀ (pes : List PressureEvent) (gs : List (Str × List PressureEvent)),
    lookupG (pes.foldl (fun gs pe =>
        (pe.context_tags.getD []).foldl (fun gs1 tg => addToGroups tg pe gs1) gs) gs) t =
      lookupG gs t ++ groupList pes t := by
  intro pes
  induction pes with
  | nil => intro gs; simp [groupList]
  | cons p pl ih =>
      intro gs
      rw [List.foldl_cons, ih, lookupG_tagfold]
      rw [show groupList (p :: pl) t =
        ((p.context_tags.getD []).filter (fun s => s == t)).map (fun _ => p) ++
          groupList pl t from rfl]
      rw [List.append_assoc]

theorem lookupG_buildGroups (pes : List PressureEvent) (t : Str) :
    lookupG (buildGroups pes) t = groupList pes t := by
  unfold buildGroups
  rw [lookupG_buildfold]
  rfl

theorem keysOf_addToGroups (tag : Str) (pe : PressureEvent) :
    ∀ (gs : List (Str × List PressureEvent)),
    keysOf (addToGroups tag pe gs) =
      if (keysOf gs).contains tag then keysOf gs else keysOf gs ++ [tag] := by
  intro gs
  induction gs with
  | nil => rfl
  | cons hd rest ih =>
      obtain ⟨t1, ps1⟩ := hd
      simp only [addToGroups]
      by_cases h1 : t1 = tag
      · rw [if_pos (by simp [h1])]
        have hc : (keysOf ((t1, ps1) :: rest)).contains tag = true := by
          simp [keysOf, List.contains_cons, h1]
        rw [hc]
        rfl
      · rw [if_neg (by simpa using h1)]
        have hcond : (keysOf ((t1, ps1) :: rest)).contains tag =
            (keysOf rest).contains tag := by
          simp only [keysOf, List.map_cons, List.contains_cons]
          rw [show (tag == t1) = false from by
            simpa using fun hh => h1 hh.symm]
          rfl
        show t1 :: keysOf (addToGroups tag pe rest) = _
        rw [ih, hcond]
        by_cases h2 : (keysOf rest).contains tag = true
        · rw [if_pos h2, if_pos h2]
          rfl
        · rw [if_neg h2, if_neg h2]
          rfl

theorem nodup_keysOf_addToGroups (tag : Str) (pe : PressureEvent)
    (gs : List (Str × List PressureEvent)) (h : (keysOf gs).Nodup) :
    (keysOf (addToGroups tag pe gs)).Nodup := by
  rw [keysOf_addToGroups]
  by_cases h1 : (keysOf gs).contains tag = true
  · rw [if_pos h1]; exact h
  · rw [if_neg h1]
    have htag : tag ∉ keysOf gs := by
      intro hm
      exact h1 (by simpa using hm)
    rw [List.nodup_append]
    refine ⟨h, List.nodup_singleton _, ?_⟩
    intro a ha hb
    rw [List.mem_singleton] at hb
    subst hb
    exact htag ha

theorem nodup_keysOf_tagfold (pe : PressureEvent) :
    ∀ (tags : List Str) (gs : List (Str × List PressureEvent)),
    (keysOf gs).Nodup →
    (keysOf (tags.foldl (fun gs1 tg => addToGroups tg pe gs1) gs)).Nodup := by
  intro tags
  induction tags with
  | nil => intro gs h; exact h
  | cons a tl ih =>
      intro gs h
      rw [List.foldl_cons]
      exact ih _ (nodup_keysOf_addToGroups _ _ _ h)

theorem nodup_keysOf_buildfold :
    ∀ (pes : List PressureEvent) (gs : List (Str × List PressureEvent)),
    (keysOf gs).Nodup →
    (keysOf (pes.foldl (fun gs pe =>
      (pe.context_tags.getD []).foldl (fun gs1 tg => addToGroups tg pe gs1) gs) gs)).Nodup := by
  intro pes
  induction pes with
  | nil => intro gs h; exact h
  | cons p pl ih =>
      intro gs h
      rw [List.foldl_cons]
      exact ih _ (nodup_keysOf_tagfold _ _ _ h)

theorem nodup_keysOf_buildGroups (pes : List PressureEvent) :
    (keysOf (buildGroups pes)).Nodup :=
  nodup_keysOf_buildfold pes [] List.nodup_nil

theorem lookupG_of_mem :
    ∀ (gs : List (Str × List PressureEvent)) (t : Str) (ps : List PressureEvent),
    (t, ps) ∈ gs → (keysOf gs).Nodup → lookupG gs t = ps := by
  intro gs
  induction gs with
  | nil => intro t ps h _; cases h
  | cons hd rest ih =>
      intro t ps hmem hnd
      obtain ⟨t1, ps1⟩ := hd
      rcases List.mem_cons.mp hmem with heq | htail
      · cases heq
        exact lookupG_cons_eq _ _ _
      · have hne : t ≠ t1 := by
          intro hh
          subst hh
          have hk : t ∈ keysOf rest := by
            have := List.mem_map_of_mem Prod.fst htail
            simpa [keysOf] using this
          exact (List.nodup_cons.mp hnd).1 hk
        rw [lookupG_cons_ne _ _ _ _ hne]
        exact ih t ps htail (List.nodup_cons.mp hnd).2

theorem buildGroups_mem_eq (pes : List PressureEvent) (t : Str)
    (ps : List PressureEvent) (h : (t, ps) ∈ buildGroups pes) :
    ps = groupList pes t := by
  have h2 := lookupG_of_mem _ t ps h (nodup_keysOf_buildGroups pes)
  rw [lookupG_buildGroups] at h2
  exact h2.symm

theorem ckey_mkCandidate (tag : Str) (pes : List PressureEvent) :
    ckey (mkCandidate tag pes) = groupKey pes := rfl

theorem mem_candLoop :
    ∀ (gs : List (Str × List PressureEvent)) (seen : List Str) (c : Candidate),
    c ∈ candLoop seen gs →
    ∃ tag pes, (tag, pes) ∈ gs ∧ c = mkCandidate tag pes ∧ 2 ≤ pes.length := by
  intro gs
  induction gs with
  | nil =>
      intro seen c h
      simp only [candLoop] at h
      cases h
  | cons hd rest ih =>
      intro seen c h
      obtain ⟨tag, pes⟩ := hd
      simp only [candLoop] at h
      by_cases h1 : pes.length < 2
      · rw [if_pos h1] at h
        obtain ⟨tg, ps, hm, hc, hl⟩ := ih seen c h
        exact ⟨tg, ps, List.mem_cons_of_mem _ hm, hc, hl⟩
      · rw [if_neg h1] at h
        by_cases h2 : seen.contains (groupKey pes) = true
        · rw [if_pos h2] at h
          obtain ⟨tg, ps, hm, hc, hl⟩ := ih seen c h
          exact ⟨tg, ps, List.mem_cons_of_mem _ hm, hc, hl⟩
        · rw [if_neg h2] at h
          rcases List.mem_cons.mp h with hc | htail
          · exact ⟨tag, pes, List.mem_cons_self _ _, hc, by omega⟩
          · obtain ⟨tg, ps, hm, hcc, hl⟩ := ih _ c htail
            exact ⟨tg, ps, List.mem_cons_of_mem _ hm, hcc, hl⟩

theorem candLoop_coverage :
    ∀ (gs : List (Str × List PressureEvent)) (seen : List Str) (tag : Str)
      (pes : List PressureEvent),
    (tag, pes) ∈ gs → 2 ≤ pes.length → seen.contains (groupKey pes) = false →
    ∃ c ∈ candLoop seen gs, ckey c = groupKey pes := by
  intro gs
  induction gs with
  | nil => intro seen tag pes h _ _; cases h
  | cons hd rest ih =>
      intro seen tag pes hmem hlen hseen
      obtain ⟨t1, ps1⟩ := hd
      simp only [candLoop]
      by_cases h1 : ps1.length < 2
      · rw [if_pos h1]
        rcases List.mem_cons.mp hmem with heq | htail
        · exact absurd h1 (by injection heq with ha hb; rw [← hb]; omega)
        · exact ih seen tag pes htail hlen hseen
      · rw [if_neg h1]
        by_cases h2 : seen.contains (groupKey ps1) = true
        · rw [if_pos h2]
          rcases List.mem_cons.mp hmem with heq | htail
          · injection heq with ha hb
            rw [← hb] at h2
            rw [hseen] at h2
            cases h2
          · exact ih seen tag pes htail hlen hseen
        · rw [if_neg h2]
          by_cases h3 : groupKey pes = groupKey ps1
          · refine ⟨mkCandidate t1 ps1, List.mem_cons_self _ _, ?_⟩
            rw [ckey_mkCandidate, h3]
          · rcases List.mem_cons.mp hmem with heq | htail
            · injection heq with ha hb
              exact absurd (by rw [hb]) h3
            · have hseen2 : (groupKey ps1 :: seen).contains (groupKey pes) = false := by
                simp only [List.contains_cons, hseen, Bool.or_false, beq_eq_false_iff_ne]
                exact h3
              obtain ⟨c, hc, hk⟩ := ih _ tag pes htail hlen hseen2
              exact ⟨c, List.mem_cons_of_mem _ hc, hk⟩

theorem candLoop_keys :
    ∀ (gs : List (Str × List PressureEvent)) (seen : List Str),
    (∀ c ∈ candLoop seen gs, seen.contains (ckey c) = false) ∧
    (candLoop seen gs).Pairwise (fun a b => ckey a ≠ ckey b) := by
  intro gs
  induction gs with
  | nil =>
      intro seen
      constructor
      · intro c h
        simp only [candLoop] at h
        cases h
      · simp only [candLoop]
        exact List.Pairwise.nil
  | cons hd rest ih =>
      intro seen
      obtain ⟨t1, ps1⟩ := hd
      simp only [candLoop]
      by_cases h1 : ps1.length < 2
      · rw [if_pos h1]; exact ih seen
      · rw [if_neg h1]
        by_cases h2 : seen.contains (groupKey ps1) = true
        · rw [if_pos h2]; exact ih seen
        · rw [if_neg h2]
          constructor
          · intro c hc
            rcases List.mem_cons.mp hc with heq | htail
            · rw [heq, ckey_mkCandidate]
              exact Bool.eq_false_iff.mpr h2
            · have h3 := (ih (groupKey ps1 :: seen)).1 c htail
              rw [List.contains_cons] at h3
              exact (Bool.or_eq_false_iff.mp h3).2
          · rw [List.pairwise_cons]
            constructor
            · intro c hc
              have h3 := (ih (groupKey ps1 :: seen)).1 c hc
              rw [List.contains_cons] at h3
              have h4 := (Bool.or_eq_false_iff.mp h3).1
              rw [ckey_mkCandidate]
              intro hh
              rw [← hh] at h4
              simp at h4
            · exact (ih (groupKey ps1 :: seen)).2

theorem mem_dedupFirstAux :
    ∀ (l seen : List Str) (t : Str),
    t ∈ dedupFirstAux seen l ↔ (t ∈ l ∧ seen.contains t = false) := by
  intro l
  induction l with
  | nil => intro seen t; simp [dedupFirstAux]
  | cons a tl ih =>
      intro seen t
      simp only [dedupFirstAux]
      by_cases h : seen.contains a = true
      · rw [if_pos h, ih]
        constructor
        · rintro ⟨h1, h2⟩
          exact ⟨List.mem_cons_of_mem _ h1, h2⟩
        · rintro ⟨h1, h2⟩
          rcases List.mem_cons.mp h1 with rfl | h3
          · rw [h2] at h
            cases h
          · exact ⟨h3, h2⟩
      · rw [if_neg h]
        have hf : seen.contains a = false := Bool.eq_false_iff.mpr h
        rw [List.mem_cons, ih, List.mem_cons]
        constructor
        · rintro (rfl | ⟨h1, h2⟩)
          · exact ⟨Or.inl rfl, hf⟩
          · rw [List.contains_cons] at h2
            exact ⟨Or.inr h1, (Bool.or_eq_false_iff.mp h2).2⟩
        · rintro ⟨h1 | h1, h2⟩
          · exact Or.inl h1
          · by_cases h3 : t = a
            · exact Or.inl h3
            · refine Or.inr ⟨h1, ?_⟩
              rw [List.contains_cons, h2]
              simp only [Bool.or_false, beq_eq_false_iff_ne]
              exact h3

theorem mem_dedupFirst (l : List Str) (t : Str) : t ∈ dedupFirst l ↔ t ∈ l := by
  unfold dedupFirst
  rw [mem_dedupFirstAux]
  simp

/-- C9 (amended): grouping the unpromoted pressure events of COMPLETED cases
by each occurrence of each context tag (an event carrying a tag twice joins
that group twice), every candidate reports a group of at least two entries
counted with multiplicity — its member ids, `id: remember` lines, and the
tags shared by every member — every occurrence group of at least two entries
is represented by a candidate with the same sorted comma-joined id key, and
distinct candidates always differ in that key (a multiset, not a set,
criterion). -/
theorem suggestReview_spec (cases : List CaseEntry) :
    (∀ c ∈ suggestReviewCandidates cases,
       c = mkCandidate c.theme (groupList (allUnpromoted cases) c.theme) ∧
       2 ≤ (groupList (allUnpromoted cases) c.theme).length ∧
       c.pressure_events =
         (groupList (allUnpromoted cases) c.theme).map (fun p => p.id) ∧
       c.remember_lines =
         (groupList (allUnpromoted cases) c.theme).map
           (fun p => p.id ++ txt ": " ++ p.remember) ∧
       (∀ t, t ∈ c.shared_tags ↔
          ((∃ p ∈ groupList (allUnpromoted cases) c.theme,
              t ∈ p.context_tags.getD []) ∧
           ∀ p ∈ groupList (allUnpromoted cases) c.theme,
             t ∈ p.context_tags.getD []))) ∧
    (∀ tag pes, (tag, pes) ∈ buildGroups (allUnpromoted cases) →
       2 ≤ pes.length →
       ∃ c ∈ suggestReviewCandidates cases, ckey c = groupKey pes) ∧
    (suggestReviewCandidates cases).Pairwise (fun a b => ckey a ≠ ckey b) := by
  refine ⟨?_, ?_, ?_⟩
  · intro c hc
    obtain ⟨tag, pes, hm, hceq, hlen⟩ := mem_candLoop _ _ c hc
    have hpes : pes = groupList (allUnpromoted cases) tag := buildGroups_mem_eq _ _ _ hm
    have htheme : c.theme = tag := by rw [hceq]; rfl
    rw [htheme, ← hpes]
    refine ⟨hceq, hlen, by rw [hceq]; rfl, by rw [hceq]; rfl, ?_⟩
    intro t
    rw [hceq]
    show t ∈ (mkCandidate tag pes).shared_tags ↔ _
    simp only [mkCandidate]
    rw [List.mem_filter, mem_dedupFirst, List.mem_flatMap]
    constructor
    · rintro ⟨⟨p, hp, ht⟩, hall⟩
      refine ⟨⟨p, hp, ht⟩, ?_⟩
      intro q hq
      have := List.all_eq_true.mp hall q hq
      simpa using this
    · rintro ⟨⟨p, hp, ht⟩, hall⟩
      refine ⟨⟨p, hp, ht⟩, ?_⟩
      rw [List.all_eq_true]
      intro q hq
      simpa using hall q hq
  · intro tag pes hm hlen
    exact candLoop_coverage _ [] tag pes hm hlen rfl
  · exact (candLoop_keys (buildGroups (allUnpromoted cases)) []).2

/-- C9 counterexample: a single unpromoted event tagged T twice and U three
times yields two candidates — both listing only that one event, repeatedly —
so two groups with the same member-id set are both reported, contradicting
the claim's distinct-records-per-group and identical-id-set dedup reading. -/
theorem suggestReview_claim_counterexample :
    (allUnpromoted [entC9]).length = 1 ∧
    (suggestReviewCandidates [entC9]).map (fun c => (c.theme, c.pressure_events)) =
      [(txt "T", [txt "PE-0001", txt "PE-0001"]),
       (txt "U", [txt "PE-0001", txt "PE-0001", txt "PE-0001"])] := by
  decide

/-- C9 witness: two events sharing tag T form a group of two that is reported
by a candidate carrying the matching sorted id key. -/
theorem suggestReview_spec_witness :
    ∃ c ∈ suggestReviewCandidates [entW9],
      ckey c = groupKey [peW 1 [txt "T"] none, peW 2 [txt "T"] none] :=
  (suggestReview_spec [entW9]).2.1 (txt "T")
    [peW 1 [txt "T"] none, peW 2 [txt "T"] none] (by decide) (by decide)

end DecisionOS
